import Mathlib

/-!
Shallow embedding of the searxng-rs metasearch core (results container,
scoring, query parser, search executor, plugin registry, calculator plugin)
and proofs about it.

Modelling conventions:
* Rust `String`/`&str` values are Lean `String`s; character-level scanning is
  done on `List Char`.
* Rust `f64` arithmetic is modelled exactly over `ℚ`; transcendental floating
  point operations and float formatting are abstract parameters.
* Rust `HashMap` is modelled as an insertion-ordered association list; where
  behaviour depends on the unspecified iteration order of a `HashMap`, the
  iteration order is an explicit parameter constrained to be a permutation of
  the stored values.
* Rust `HashSet<String>` is modelled as `Finset String`.
* ASCII inputs are assumed: `char::is_whitespace` and `to_lowercase` are
  modelled on their ASCII behaviour.
-/

namespace Searx

/-! ## Character and list utilities -/

/-- ASCII whitespace, modelling both `char::is_whitespace` and regex `\s`
on ASCII input. -/
def isWs (c : Char) : Bool :=
  c = ' ' ∨ c = '\t' ∨ c = '\n' ∨ c = '\r' ∨ c = '\x0b' ∨ c = '\x0c'

def isLowerAZ (c : Char) : Bool := 'a' ≤ c ∧ c ≤ 'z'

def isUpperAZ (c : Char) : Bool := 'A' ≤ c ∧ c ≤ 'Z'

def isDigitC (c : Char) : Bool := '0' ≤ c ∧ c ≤ '9'

/-- Regex `\w`: word character. -/
def isWordC (c : Char) : Bool := isLowerAZ c ∨ isUpperAZ c ∨ isDigitC c ∨ c = '_'

/-- ASCII lowercasing of one character, modelling `char/str::to_lowercase`
on ASCII input. -/
def toLowerC (c : Char) : Char :=
  if isUpperAZ c then Char.ofNat (c.toNat + 32) else c

/-- `p` is a prefix of `l` (decidable, by character equality). -/
def isPre : List Char → List Char → Bool
  | [], _ => true
  | _ :: _, [] => false
  | p :: ps, c :: cs => p = c ∧ isPre ps cs

/-- `str::contains(pat)` for a literal pattern. -/
def containsSub (pat : List Char) : List Char → Bool
  | [] => isPre pat []
  | c :: rest => isPre pat (c :: rest) ∨ containsSub pat rest

/-- Worker for `replaceSub`: `skip` counts characters still belonging to a
match already replaced (hence dropped from the output). -/
def replaceSubAux (pat repl : List Char) : Nat → List Char → List Char
  | _, [] => []
  | n + 1, _ :: rest => replaceSubAux pat repl n rest
  | 0, c :: rest =>
    if isPre pat (c :: rest) ∧ pat ≠ [] then
      repl ++ replaceSubAux pat repl (pat.length - 1) rest
    else
      c :: replaceSubAux pat repl 0 rest

/-- `str::replace(pat, repl)`: replace all non-overlapping occurrences,
left to right. -/
def replaceSub (pat repl l : List Char) : List Char :=
  replaceSubAux pat repl 0 l

/-- Worker for `stripAll`; the fuel `n` only bounds the number of rounds and
`l.length` rounds always suffice. -/
def stripAllAux (pat : List Char) : Nat → List Char → List Char
  | 0, l => l
  | n + 1, l =>
    if pat ≠ [] ∧ isPre pat l then stripAllAux pat n (l.drop pat.length) else l

/-- `str::trim_start_matches(pat)` for a literal pattern: repeatedly remove
the prefix `pat`. -/
def stripAll (pat l : List Char) : List Char :=
  stripAllAux pat l.length l

/-- `str::trim`: drop whitespace from both ends (ASCII model). -/
def trimL (l : List Char) : List Char :=
  ((l.dropWhile isWs).reverse.dropWhile isWs).reverse

/-- Worker for `splitWs`, accumulating the current word reversed. -/
def splitWsAux (cur : List Char) : List Char → List (List Char)
  | [] => if cur = [] then [] else [cur.reverse]
  | c :: rest =>
    if isWs c then
      if cur = [] then splitWsAux [] rest else cur.reverse :: splitWsAux [] rest
    else
      splitWsAux (c :: cur) rest

/-- `str::split_whitespace` (ASCII model). -/
def splitWs (l : List Char) : List (List Char) :=
  splitWsAux [] l

/-- `Vec::join(" ")`. -/
def joinSpace : List (List Char) → List Char
  | [] => []
  | [w] => w
  | w :: rest => w ++ ' ' :: joinSpace rest

/-- Whitespace normalization: split on whitespace runs and re-join with a
single space (the parser's final cleanup step). -/
def normWs (l : List Char) : List Char :=
  joinSpace (splitWs l)

/-- String-level whitespace normalization. -/
def normWsStr (s : String) : String :=
  String.mk (normWs s.toList)

/-- Index of the last character satisfying `p` (`str::rfind` with a char
predicate; char positions, ASCII model of byte positions). -/
def rfindIdxP (p : Char → Bool) : List Char → Option Nat
  | [] => none
  | c :: rest =>
    match rfindIdxP p rest with
    | some i => some (i + 1)
    | none => if p c then some 0 else none

/-! ## Result types (src/results/types.rs) -/

structure ResultMetadata where
  thumbnail : Option String := none
  img_src : Option String := none
  template : Option String := none
  author : Option String := none
  published_date : Option String := none
  file_type : Option String := none
  file_size : Option String := none
  duration : Option String := none
  views : Option Nat := none
  iframe_src : Option String := none
  audio_src : Option String := none
  is_official : Bool := false
  deriving DecidableEq

inductive ResultType where
  | Default | Image | Video | Map | News | Paper | File | Code | Answer | InfoBoxT
  deriving DecidableEq

/-- A single search result. The `parsed_url` field of the source (a cached
`Url::parse` of `url`, used only for hostname display) is not modelled; none
of the container operations read it. -/
structure Result where
  url : String
  title : String
  content : Option String
  engine : String
  engines : Finset String
  positions : List Nat
  score : ℚ
  category : Option String
  metadata : ResultMetadata
  result_type : ResultType
  deriving DecidableEq

/-- `Result::new`. -/
def Result.new (url title engine : String) : Result :=
  { url := url
    title := title
    content := none
    engine := engine
    engines := {engine}
    positions := []
    score := 0
    category := none
    metadata := {}
    result_type := ResultType.Default }

/-- `Result::with_content`. -/
def Result.with_content (self : Result) (content : String) : Result :=
  { self with content := some content }

/-- `Result::with_position`. -/
def Result.with_position (self : Result) (position : Nat) : Result :=
  { self with positions := self.positions ++ [position] }

/-- `Result::merge`: extend `engines`, append `positions`, adopt `content`
only when absent. -/
def Result.merge (self other : Result) : Result :=
  { self with
      engines := self.engines ∪ other.engines
      positions := self.positions ++ other.positions
      content :=
        if self.content.isNone ∧ other.content.isSome then other.content
        else self.content }

/-- First-match lookup in an association list (model of `HashMap::get`; keys
are unique in every map the code builds). -/
def lookupWeight (m : List (String × ℚ)) (e : String) : Option ℚ :=
  match m with
  | [] => none
  | (k, v) :: rest => if k = e then some v else lookupWeight rest e

/-- `Result::calculate_score`: the weight is the product of the known engine
weights (an engine missing from the map leaves the running product untouched)
times the number of engines; the score sums `weight / position`. The source
iterates a `HashSet` accumulating a product of `f64`s; over `ℚ` the product
is exact and order-independent, so it is modelled as `Finset.prod`. -/
def Result.calculate_score (self : Result) (engine_weights : List (String × ℚ)) : Result :=
  let weight :=
    (self.engines.prod fun e => (lookupWeight engine_weights e).getD 1) *
      (self.engines.card : ℚ)
  { self with score := (self.positions.map fun pos : Nat => weight / (pos : ℚ)).sum }

structure Answer where
  answer : String
  engine : String
  url : Option String
  deriving DecidableEq

def Answer.new (answer engine : String) : Answer :=
  { answer := answer, engine := engine, url := none }

structure Suggestion where
  text : String
  engine : String
  deriving DecidableEq

structure Correction where
  text : String
  engine : String
  deriving DecidableEq

structure InfoBox where
  id : String
  title : String
  content : Option String
  img_src : Option String
  url : Option String
  engine : String
  attributes : List (String × String)
  urls : List (String × String)
  deriving DecidableEq

structure Timing where
  engine : String
  time_ms : Nat
  result_count : Nat
  deriving DecidableEq

inductive EngineError where
  | Timeout | NetworkError | HttpError (code : Nat) | ParseError | AccessDenied
  | Captcha | TooManyRequests | ServerError | Suspended | Unknown
  deriving DecidableEq

structure UnresponsiveEngine where
  name : String
  error : EngineError
  deriving DecidableEq

/-! ## Result container (src/results/container.rs) -/

/-- The container. `results_map` models the `HashMap<String, Result>` as an
insertion-ordered association list; `suggestions` and `corrections` model
`HashSet`s as duplicate-free lists. -/
structure ResultContainer where
  results_map : List (String × Result)
  answers : List Answer
  suggestions : List Suggestion
  corrections : List Correction
  infoboxes : List InfoBox
  unresponsive_engines : List UnresponsiveEngine
  timings : List Timing
  redirect_url : Option String
  engine_weights : List (String × ℚ)
  deriving DecidableEq

/-- `ResultContainer::new`. -/
def ResultContainer.new : ResultContainer :=
  { results_map := []
    answers := []
    suggestions := []
    corrections := []
    infoboxes := []
    unresponsive_engines := []
    timings := []
    redirect_url := none
    engine_weights := [] }

/-- `ResultContainer::with_weights`. -/
def ResultContainer.with_weights (weights : List (String × ℚ)) : ResultContainer :=
  { ResultContainer.new with engine_weights := weights }

/-- `ResultContainer::url_hash`: trim trailing slashes, strip scheme and
`www.`, lowercase. -/
def url_hash (url : String) : String :=
  let l := (url.toList.reverse.dropWhile (· = '/')).reverse
  let l := replaceSub "https://".toList [] l
  let l := replaceSub "http://".toList [] l
  let l := replaceSub "www.".toList [] l
  String.mk (l.map toLowerC)

/-- Update the entry at `key` by merging `r` into it, or append a fresh
entry (model of `HashMap::get_mut` / `insert` in `add_result`). -/
def updateEntry (key : String) (r : Result) :
    List (String × Result) → List (String × Result)
  | [] => [(key, r)]
  | (k, ex) :: rest =>
    if k = key then (k, ex.merge r) :: rest
    else (k, ex) :: updateEntry key r rest

/-- `ResultContainer::add_result`. -/
def ResultContainer.add_result (c : ResultContainer) (result : Result) : ResultContainer :=
  { c with results_map := updateEntry (url_hash result.url) result c.results_map }

/-- `ResultContainer::extend_results`. -/
def ResultContainer.extend_results (c : ResultContainer) (results : List Result) : ResultContainer :=
  results.foldl ResultContainer.add_result c

/-- `ResultContainer::add_answer` (deduplicated by answer text). -/
def ResultContainer.add_answer (c : ResultContainer) (answer : Answer) : ResultContainer :=
  if c.answers.any (fun a => a.answer = answer.answer) then c
  else { c with answers := c.answers ++ [answer] }

/-- `ResultContainer::add_suggestion` (`HashSet::insert`). -/
def ResultContainer.add_suggestion (c : ResultContainer) (s : Suggestion) : ResultContainer :=
  if s ∈ c.suggestions then c else { c with suggestions := c.suggestions ++ [s] }

/-- `ResultContainer::add_correction` (`HashSet::insert`). -/
def ResultContainer.add_correction (c : ResultContainer) (co : Correction) : ResultContainer :=
  if co ∈ c.corrections then c else { c with corrections := c.corrections ++ [co] }

/-- Replace the infobox with matching id when the incoming content is longer
(worker for `add_infobox`). -/
def updateInfobox (ib : InfoBox) : List InfoBox → List InfoBox
  | [] => []
  | b :: rest =>
    if b.id = ib.id then
      (if ((ib.content.map String.length).getD 0) > ((b.content.map String.length).getD 0)
       then ib else b) :: rest
    else b :: updateInfobox ib rest

/-- `ResultContainer::add_infobox`. -/
def ResultContainer.add_infobox (c : ResultContainer) (ib : InfoBox) : ResultContainer :=
  if c.infoboxes.any (fun b => b.id = ib.id) then
    { c with infoboxes := updateInfobox ib c.infoboxes }
  else { c with infoboxes := c.infoboxes ++ [ib] }

/-- `ResultContainer::add_unresponsive`. -/
def ResultContainer.add_unresponsive (c : ResultContainer) (name : String)
    (error : EngineError) : ResultContainer :=
  { c with unresponsive_engines := c.unresponsive_engines ++ [⟨name, error⟩] }

/-- `ResultContainer::add_timing`. -/
def ResultContainer.add_timing (c : ResultContainer) (t : Timing) : ResultContainer :=
  { c with timings := c.timings ++ [t] }

/-- `ResultContainer::set_redirect`. -/
def ResultContainer.set_redirect (c : ResultContainer) (url : String) : ResultContainer :=
  { c with redirect_url := some url }

/-- `ResultContainer::get_redirect`. -/
def ResultContainer.get_redirect (c : ResultContainer) : Option String :=
  c.redirect_url

/-- Comparator of the sort in `get_ordered_results`:
`b.score.partial_cmp(&a.score)` descending. -/
def scoreGE (a b : Result) : Prop := b.score ≤ a.score

instance : DecidableRel scoreGE := fun a b => inferInstanceAs (Decidable (b.score ≤ a.score))

instance : IsTotal Result scoreGE := ⟨fun a b => le_total b.score a.score⟩

instance : IsTrans Result scoreGE := ⟨fun _ _ _ h1 h2 => le_trans h2 h1⟩

/-- `ResultContainer::get_ordered_results`. The source iterates
`HashMap::values()`, whose order the `HashMap` leaves unspecified: `iterOrder`
is that sequence, constrained by callers to be a permutation of the stored
results. Scores are computed, then a stable sort by descending score is
applied (Rust `sort_by` is stable; a stable sort is uniquely determined by
the comparator, so insertion sort models it exactly). -/
def ResultContainer.get_ordered_results (c : ResultContainer)
    (iterOrder : List Result) : List Result :=
  List.insertionSort scoreGE
    (iterOrder.map fun r => r.calculate_score c.engine_weights)

/-- The stored results in insertion order. -/
def ResultContainer.storedResults (c : ResultContainer) : List Result :=
  c.results_map.map Prod.snd

/-! ## Query parser (src/query/mod.rs)

The three regexes of the parser are modelled by deterministic matchers that
reproduce the regex's anchored match at one position (including the greedy
optional groups), driven across the string by a scanner that replicates
leftmost, non-overlapping matching with replacement by a single space. -/

inductive TimeRange where
  | Day | Week | Month | Year
  deriving DecidableEq

/-- Generic regex scan: try the matcher at each position, left to right; on a
match of length `len`, record the capture, emit a single `' '` for the whole
match, and resume after it (non-overlapping). The first argument is the
number of still-to-skip characters of a match already replaced. -/
def scanRe {α : Type} (m : List Char → Option (α × Nat)) :
    Nat → List Char → List α × List Char
  | _, [] => ([], [])
  | n + 1, _ :: rest => scanRe m n rest
  | 0, c :: rest =>
    match m (c :: rest) with
    | some (cap, len) =>
      let (caps, out) := scanRe m (len - 1) rest
      (cap :: caps, ' ' :: out)
    | none =>
      let (caps, out) := scanRe m 0 rest
      (caps, c :: out)

/-- Terminator `(?:\s|$)` of the language regex after a two-letter tag:
returns the matched length on success. -/
def langShort (a b : Char) : List Char → Option (List Char × Nat)
  | [] => some ([a, b], 3)
  | w :: _ => if isWs w then some ([a, b], 4) else none

/-- Anchored match of `:([a-z]{2}(?:-[A-Z]{2})?)(?:\s|$)`: capture and total
match length. The optional region group is greedy with backtracking to the
two-letter form. -/
def langAt : List Char → Option (List Char × Nat)
  | ':' :: a :: b :: rest =>
    if isLowerAZ a ∧ isLowerAZ b then
      match rest with
      | '-' :: c :: d :: rest2 =>
        if isUpperAZ c ∧ isUpperAZ d then
          match rest2 with
          | [] => some ([a, b, '-', c, d], 6)
          | w :: _ => if isWs w then some ([a, b, '-', c, d], 7) else langShort a b rest
        else langShort a b rest
      | _ => langShort a b rest
    else none
  | _ => none

def spanDigits (l : List Char) : List Char × List Char :=
  (l.takeWhile isDigitC, l.dropWhile isDigitC)

/-- Terminator `(?:\s|$)` returning the consumed length. -/
def wsTermLen : List Char → Option Nat
  | [] => some 0
  | w :: _ => if isWs w then some 1 else none

/-- Anchored match of `<(\d+(?:\.\d+)?)(ms)?(?:\s|$)`: capture is
(integer digits, fraction digits, ms flag). Giving back characters from the
greedy `\d+` groups can never help (the terminator rejects digits), so the
matcher is deterministic. -/
def timeoutAt : List Char → Option ((List Char × List Char × Bool) × Nat)
  | '<' :: rest =>
    let (ds, r1) := spanDigits rest
    if ds = [] then none
    else
      let fr : List Char × List Char :=
        match r1 with
        | '.' :: t =>
          let (fs, r2) := spanDigits t
          if fs = [] then ([], r1) else (fs, r2)
        | _ => ([], r1)
      let fs := fr.1
      let fracLen := if fs = [] then 0 else fs.length + 1
      match fr.2 with
      | 'm' :: 's' :: r3 =>
        -- with `ms` present, skipping it leaves `m` at the terminator, which
        -- fails anyway, so trying the `ms` branch first loses nothing
        match wsTermLen r3 with
        | some t => some ((ds, fs, true), 1 + ds.length + fracLen + 2 + t)
        | none => none
      | r2 =>
        match wsTermLen r2 with
        | some t => some ((ds, fs, false), 1 + ds.length + fracLen + t)
        | none => none
  | _ => none

def digitsToNat (l : List Char) : Nat :=
  l.foldl (fun acc c => acc * 10 + (c.toNat - '0'.toNat)) 0

/-- Value of `ds.fs` as an exact rational (`f64` parsing modelled exactly). -/
def decimalToRat (ds fs : List Char) : ℚ :=
  (digitsToNat ds : ℚ) + (digitsToNat fs : ℚ) / ((10 : ℚ) ^ fs.length)

/-- Anchored match of the engine-bang regex `!(\w+)(?:\s|$)`. -/
def bangAt : List Char → Option (List Char × Nat)
  | '!' :: rest =>
    let wcs := rest.takeWhile isWordC
    if wcs = [] then none
    else
      match rest.dropWhile isWordC with
      | [] => some (wcs, 1 + wcs.length)
      | w :: _ => if isWs w then some (wcs, 1 + wcs.length + 1) else none
  | _ => none

/-- The `time_ranges` table, in source order (first contained pattern wins). -/
def timeRangesL : List (List Char × TimeRange) :=
  [("!day".toList, TimeRange.Day), ("!week".toList, TimeRange.Week),
   ("!month".toList, TimeRange.Month), ("!year".toList, TimeRange.Year)]

/-- Time-range pass: `break` after the first contained pattern. -/
def scanTimeRange : List (List Char × TimeRange) → List Char → Option TimeRange × List Char
  | [], q => (none, q)
  | (pat, range) :: rest, q =>
    if containsSub pat q then (some range, replaceSub pat [' '] q)
    else scanTimeRange rest q

/-- The `category_bangs` table, in source order. -/
def categoryBangsL : List (List Char × String) :=
  [("!images".toList, "images"), ("!videos".toList, "videos"),
   ("!news".toList, "news"), ("!music".toList, "music"),
   ("!files".toList, "files"), ("!it".toList, "it"),
   ("!science".toList, "science"), ("!social".toList, "social"),
   ("!maps".toList, "maps")]

/-- Category-bang pass: every contained pattern pushes its category and is
replaced (no break). -/
def scanCategories : List (List Char × String) → List Char → List String × List Char
  | [], q => ([], q)
  | (pat, cat) :: rest, q =>
    if containsSub pat q then
      let (cs, q2) := scanCategories rest (replaceSub pat [' '] q)
      (cat :: cs, q2)
    else scanCategories rest q

/-- `query.starts_with('!') && query.chars().nth(1).map(|c| c == ' ').unwrap_or(true)`. -/
def startsBangBlank : List Char → Bool
  | [] => false
  | c :: r =>
    if c = '!' then
      match r with
      | [] => true
      | d :: _ => d = ' '
    else false

/-- `str::trim_start_matches("!!")`: drop leading pairs of bangs. -/
def dropDoubleBangs : List Char → List Char
  | '!' :: '!' :: rest => dropDoubleBangs rest
  | l => l

/-- `ParsedQuery::get_engine_bangs` as a lookup function (the map literal of
the source). -/
def get_engine_bangs (s : String) : Option String :=
  match s with
  | "g" | "google" => some "google"
  | "ddg" | "duckduckgo" => some "duckduckgo"
  | "bi" | "bing" => some "bing"
  | "br" | "brave" => some "brave"
  | "wp" | "wikipedia" => some "wikipedia"
  | "yt" | "youtube" => some "youtube"
  | "gh" | "github" => some "github"
  | "so" | "stackoverflow" => some "stackoverflow"
  | "arx" | "arxiv" => some "arxiv"
  | _ => none

/-- `ParsedQuery::is_external_bang`. -/
def is_external_bang (bang : String) : Bool :=
  bang = "g" ∨ bang = "yt" ∨ bang = "w" ∨ bang = "wa" ∨ bang = "amazon" ∨ bang = "imdb"

/-- Classify the lowercased bang captures in order: engine shortcut first,
then external allow-list (last one wins), else kept as a remaining bang
`!token` (lowercased). -/
def procBangCaps : List (List Char) → List String → Option String → List (List Char) →
    List String × Option String × List (List Char)
  | [], engines, ext, remaining => (engines, ext, remaining)
  | cap :: rest, engines, ext, remaining =>
    let bangChars := cap.map toLowerC
    let bang := String.mk bangChars
    match get_engine_bangs bang with
    | some e => procBangCaps rest (engines ++ [e]) ext remaining
    | none =>
      if is_external_bang bang then procBangCaps rest engines (some bang) remaining
      else procBangCaps rest engines ext (remaining ++ [('!' :: bangChars)])

/-- Re-add unrecognized bangs: each is prepended with a following space, so
the last remaining bang ends up first. -/
def prependBangs (remaining : List (List Char)) (q : List Char) : List Char :=
  remaining.foldl (fun acc b => b ++ ' ' :: acc) q

structure ParsedQuery where
  query : String
  raw_query : String
  languages : List String
  categories : List String
  engines : List String
  external_bang : Option String
  timeout : Option ℚ
  safesearch : Option Nat
  time_range : Option TimeRange
  pageno : Nat
  redirect_to_first : Bool
  deriving DecidableEq

/-- `ParsedQuery::parse`, following the source's pass order: languages,
timeout, safesearch toggles, time range, redirect flag, category bangs,
engine bangs, re-adding unknown bangs, whitespace cleanup. -/
def ParsedQuery.parse (raw : String) : ParsedQuery :=
  let q := raw.toList
  let (langCaps, q) := scanRe langAt 0 q
  let languages := langCaps.map String.mk
  let (toCaps, q) := scanRe timeoutAt 0 q
  let timeout := toCaps.head?.map fun cap =>
    let v := decimalToRat cap.1 cap.2.1
    if cap.2.2 then v / 1000 else v
  let (ss1, q) :=
    if containsSub "!safesearch".toList q then
      ((some 2 : Option Nat), replaceSub "!safesearch".toList [' '] q)
    else (none, q)
  let (safesearch, q) :=
    if containsSub "!nosafesearch".toList q then
      ((some 0 : Option Nat), replaceSub "!nosafesearch".toList [' '] q)
    else (ss1, q)
  let (time_range, q) := scanTimeRange timeRangesL q
  let fired1 := startsBangBlank q
  let q := if fired1 then q.dropWhile (· = '!') else q
  let fired2 := isPre ['!', '!'] q
  let q := if fired2 then dropDoubleBangs q else q
  let redirect_to_first := fired1 || fired2
  let (categories, q) := scanCategories categoryBangsL q
  let (bangCaps, q) := scanRe bangAt 0 q
  let (engines, external_bang, remaining) := procBangCaps bangCaps [] none []
  let q := prependBangs remaining q
  { query := String.mk (normWs q)
    raw_query := raw
    languages := languages
    categories := categories
    engines := engines
    external_bang := external_bang
    timeout := timeout
    safesearch := safesearch
    time_range := time_range
    pageno := 1
    redirect_to_first := redirect_to_first }

/-! ## Search models and executor (src/search/models.rs, src/search/executor.rs) -/

structure EngineRef where
  name : String
  category : String
  deriving DecidableEq

/-- `SearchQuery`. The `engine_data` field (opaque per-engine JSON carry-over)
is not modelled; the executor only ever passes an empty map for it. -/
structure SearchQuery where
  query : String
  engine_refs : List EngineRef
  lang : String
  safesearch : Nat
  pageno : Nat
  time_range : Option TimeRange
  timeout_limit : Option ℚ
  external_bang : Option String
  redirect_to_first : Bool
  deriving DecidableEq

/-- `SearchQuery::is_empty`: the query trims to nothing. -/
def SearchQuery.is_empty (q : SearchQuery) : Bool :=
  trimL q.query.toList = []

def hexDigitU (n : Nat) : Char :=
  if n < 10 then Char.ofNat ('0'.toNat + n) else Char.ofNat ('A'.toNat + (n - 10))

/-- UTF-8 bytes of a character. -/
def utf8Bytes (c : Char) : List Nat :=
  let n := c.toNat
  if n < 0x80 then [n]
  else if n < 0x800 then [0xC0 + n / 64, 0x80 + n % 64]
  else if n < 0x10000 then [0xE0 + n / 4096, 0x80 + (n / 64) % 64, 0x80 + n % 64]
  else [0xF0 + n / 262144, 0x80 + (n / 4096) % 64, 0x80 + (n / 64) % 64, 0x80 + n % 64]

/-- Characters the `urlencoding` crate leaves unescaped. -/
def isUrlUnreserved (c : Char) : Bool :=
  isLowerAZ c ∨ isUpperAZ c ∨ isDigitC c ∨ c = '-' ∨ c = '.' ∨ c = '_' ∨ c = '~'

/-- `urlencoding::encode`: percent-encode every byte of every character
outside the unreserved set. -/
def urlencode (s : String) : String :=
  String.mk (s.toList.flatMap fun c =>
    if isUrlUnreserved c then [c]
    else (utf8Bytes c).flatMap fun b => ['%', hexDigitU (b / 16), hexDigitU (b % 16)])

/-- `Search::get_external_bang_url`. Note the match arms: the parser's
allow-list entry `wa` has no arm here. -/
def get_external_bang_url (bang query : String) : Option String :=
  let encoded_query := urlencode query
  match bang with
  | "g" => some ("https://www.google.com/search?q=" ++ encoded_query)
  | "yt" => some ("https://www.youtube.com/results?search_query=" ++ encoded_query)
  | "w" | "wp" => some ("https://en.wikipedia.org/wiki/Special:Search?search=" ++ encoded_query)
  | "gh" => some ("https://github.com/search?q=" ++ encoded_query)
  | "so" => some ("https://stackoverflow.com/search?q=" ++ encoded_query)
  | "ddg" => some ("https://duckduckgo.com/?q=" ++ encoded_query)
  | "amazon" => some ("https://www.amazon.com/s?k=" ++ encoded_query)
  | "imdb" => some ("https://www.imdb.com/find?q=" ++ encoded_query)
  | _ => none

/-- `EngineResults`: what one engine's parse step returns. -/
structure EngineResults where
  results : List Result
  answers : List Answer
  suggestions : List Suggestion
  infoboxes : List InfoBox
  deriving DecidableEq

/-- Outcome of one engine's request/response round trip, abstracting the
network: request building failed, the deadline elapsed, the transport failed
with an error message, the response failed to parse with an error message,
or results arrived after `elapsedMs` milliseconds. -/
inductive EngineOutcome where
  | buildError
  | timedOut
  | transportError (msg : String)
  | parseFailure (msg : String)
  | success (res : EngineResults) (elapsedMs : Nat)

/-- Error classification of an HTTP-level failure by message substrings. -/
def classifyTransport (msg : String) : EngineError :=
  if containsSub "timeout".toList msg.toList then EngineError.Timeout
  else if containsSub "429".toList msg.toList then EngineError.TooManyRequests
  else if containsSub "403".toList msg.toList then EngineError.AccessDenied
  else EngineError.NetworkError

/-- Error classification of a parse failure: a message containing `CAPTCHA`
becomes `Captcha`. -/
def classifyParse (msg : String) : EngineError :=
  if containsSub "CAPTCHA".toList msg.toList then EngineError.Captcha
  else EngineError.ParseError

/-- `Search::search_engine`: the updates one engine's task applies to the
container, by outcome. On success: results (stamped with the engine-ref's
category), answers, suggestions, infoboxes, then the timing record. -/
def searchEngine (outcome : EngineOutcome) (engineName category : String)
    (c : ResultContainer) : ResultContainer :=
  match outcome with
  | EngineOutcome.buildError => c.add_unresponsive engineName EngineError.Unknown
  | EngineOutcome.timedOut => c.add_unresponsive engineName EngineError.Timeout
  | EngineOutcome.transportError msg => c.add_unresponsive engineName (classifyTransport msg)
  | EngineOutcome.parseFailure msg => c.add_unresponsive engineName (classifyParse msg)
  | EngineOutcome.success res ms =>
    let c := res.results.foldl (fun c r => c.add_result { r with category := some category }) c
    let c := res.answers.foldl ResultContainer.add_answer c
    let c := res.suggestions.foldl ResultContainer.add_suggestion c
    let c := res.infoboxes.foldl ResultContainer.add_infobox c
    c.add_timing { engine := engineName, time_ms := ms, result_count := res.results.length }

/-- The slice of the engine registry the executor reads: which engine names
are loaded (`registry.get`) and the effective weight per name
(`registry.get_weight`, which already folds in config and engine defaults). -/
structure ExecRegistry where
  engineNames : List String
  weights : String → ℚ

/-- `Search::execute`. `outcomes` abstracts the per-engine network round
trip. The source dispatches engines concurrently and joins them; engine
tasks touch disjoint container collections apart from list appends, and this
model serializes them in `engine_refs` order. The claims proved below do not
depend on that interleaving. -/
def Search.execute (reg : ExecRegistry) (outcomes : String → EngineOutcome)
    (query : SearchQuery) : ResultContainer :=
  let weights := query.engine_refs.map fun e => (e.name, reg.weights e.name)
  let container := ResultContainer.with_weights weights
  match query.external_bang.bind fun bang => get_external_bang_url bang query.query with
  | some redirect_url => container.set_redirect redirect_url
  | none =>
    if query.is_empty then container
    else
      (query.engine_refs.filter fun e => reg.engineNames.contains e.name).foldl
        (fun c e => searchEngine (outcomes e.name) e.name e.category c) container

/-! ## Plugin registry (src/plugins/registry.rs, src/plugins/traits.rs) -/

structure PluginInfo where
  id : String
  name : String
  description : String
  default_on : Bool
  deriving DecidableEq

inductive PreSearchResult where
  | Continue
  | Answer (a : Searx.Answer)
  | Skip
  | ModifyQuery (s : String)

/-- A plugin, modelled by its info and its `pre_search` hook (the only hook
the claims concern). The hook receives `&mut SearchQuery` in the source; it
is modelled as a pure function of the query returning the verdict, with the
registry applying the `ModifyQuery` mutation. -/
structure Plugin where
  info : PluginInfo
  pre_search : SearchQuery → PreSearchResult

structure PluginRegistry where
  plugins : List Plugin
  enabled : List String

def PluginRegistry.new : PluginRegistry :=
  { plugins := [], enabled := [] }

/-- `PluginRegistry::register`: default-on plugins are enabled on
registration. -/
def PluginRegistry.register (r : PluginRegistry) (p : Plugin) : PluginRegistry :=
  { plugins := r.plugins ++ [p]
    enabled := if p.info.default_on then r.enabled ++ [p.info.id] else r.enabled }

def PluginRegistry.is_enabled (r : PluginRegistry) (id : String) : Bool :=
  r.enabled.contains id

def PluginRegistry.enabled_plugins (r : PluginRegistry) : List Plugin :=
  r.plugins.filter fun p => r.is_enabled p.info.id

/-- The loop body of `PluginRegistry::pre_search`: `Continue` moves on,
`Answer` returns it, `Skip` returns none, `ModifyQuery` rewrites the query
and moves on. Returns the verdict answer and the final query state. -/
def preSearchLoop : List Plugin → SearchQuery → Option Answer × SearchQuery
  | [], q => (none, q)
  | p :: rest, q =>
    match p.pre_search q with
    | PreSearchResult.Continue => preSearchLoop rest q
    | PreSearchResult.Answer a => (some a, q)
    | PreSearchResult.Skip => (none, q)
    | PreSearchResult.ModifyQuery s => preSearchLoop rest { q with query := s }

/-- `PluginRegistry::pre_search`. -/
def PluginRegistry.pre_search (r : PluginRegistry) (q : SearchQuery) :
    Option Answer × SearchQuery :=
  preSearchLoop r.enabled_plugins q

/-- Modelled from the spec: "Plugins run in registration order; the first
non-`Continue` verdict ends the pipeline." Identical to `preSearchLoop`
except that a `ModifyQuery` verdict also ends the pipeline. Stated only to
compare the claim's reading with the code. -/
def preSearchClaimLoop : List Plugin → SearchQuery → Option Answer × SearchQuery
  | [], q => (none, q)
  | p :: rest, q =>
    match p.pre_search q with
    | PreSearchResult.Continue => preSearchClaimLoop rest q
    | PreSearchResult.Answer a => (some a, q)
    | PreSearchResult.Skip => (none, q)
    | PreSearchResult.ModifyQuery s => (none, { q with query := s })

/-! ## rfind facts (used for the calculator's termination and proofs) -/

theorem rfindIdxP_eq_none {p : Char → Bool} {l : List Char}
    (h : rfindIdxP p l = none) : ∀ c ∈ l, p c = false := by
  induction l with
  | nil => simp
  | cons c rest ih =>
    intro d hd
    unfold rfindIdxP at h
    cases hr : rfindIdxP p rest with
    | some i => rw [hr] at h; exact absurd h (by simp)
    | none =>
      rw [hr] at h
      by_cases hc : p c = true
      · rw [if_pos hc] at h; exact absurd h (by simp)
      · rcases List.mem_cons.mp hd with rfl | hmem
        · exact Bool.eq_false_iff.mpr hc
        · exact ih hr d hmem

theorem rfindIdxP_none_of_all {p : Char → Bool} {l : List Char}
    (h : ∀ c ∈ l, p c = false) : rfindIdxP p l = none := by
  induction l with
  | nil => rfl
  | cons c rest ih =>
    unfold rfindIdxP
    rw [ih fun d hd => h d (List.mem_cons_of_mem c hd)]
    simp [h c (List.mem_cons_self c rest)]

theorem rfindIdxP_lt {p : Char → Bool} {l : List Char} {i : Nat}
    (h : rfindIdxP p l = some i) : i < l.length := by
  induction l generalizing i with
  | nil => exact absurd h (by simp [rfindIdxP])
  | cons c rest ih =>
    unfold rfindIdxP at h
    cases hr : rfindIdxP p rest with
    | some j =>
      rw [hr] at h
      obtain rfl : j + 1 = i := by simpa using h
      simpa using Nat.succ_lt_succ (ih hr)
    | none =>
      rw [hr] at h
      by_cases hc : p c = true
      · rw [if_pos hc] at h
        obtain rfl : (0 : Nat) = i := by simpa using h
        simp
      · rw [if_neg hc] at h; exact absurd h (by simp)

theorem rfindIdxP_found {p : Char → Bool} {l : List Char} {i : Nat}
    (h : rfindIdxP p l = some i) : ∃ c, l[i]? = some c ∧ p c = true := by
  induction l generalizing i with
  | nil => exact absurd h (by simp [rfindIdxP])
  | cons c rest ih =>
    unfold rfindIdxP at h
    cases hr : rfindIdxP p rest with
    | some j =>
      rw [hr] at h
      obtain rfl : j + 1 = i := by simpa using h
      simpa using ih hr
    | none =>
      rw [hr] at h
      by_cases hc : p c = true
      · rw [if_pos hc] at h
        obtain rfl : (0 : Nat) = i := by simpa using h
        exact ⟨c, by simp, hc⟩
      · rw [if_neg hc] at h; exact absurd h (by simp)

theorem rfindIdxP_after {p : Char → Bool} {l : List Char} {i : Nat}
    (h : rfindIdxP p l = some i) : ∀ c ∈ l.drop (i + 1), p c = false := by
  induction l generalizing i with
  | nil => exact absurd h (by simp [rfindIdxP])
  | cons c rest ih =>
    unfold rfindIdxP at h
    cases hr : rfindIdxP p rest with
    | some j =>
      rw [hr] at h
      obtain rfl : j + 1 = i := by simpa using h
      simpa using ih hr
    | none =>
      rw [hr] at h
      by_cases hc : p c = true
      · rw [if_pos hc] at h
        obtain rfl : (0 : Nat) = i := by simpa using h
        simpa using rfindIdxP_eq_none hr
      · rw [if_neg hc] at h; exact absurd h (by simp)

theorem rfindIdxP_append_last {p : Char → Bool} {a b : List Char} {x : Char}
    (hx : p x = true) (hb : ∀ c ∈ b, p c = false) :
    rfindIdxP p (a ++ x :: b) = some a.length := by
  induction a with
  | nil =>
    rw [List.nil_append]
    unfold rfindIdxP
    rw [rfindIdxP_none_of_all hb]
    simp [hx]
  | cons c a ih =>
    rw [List.cons_append]
    unfold rfindIdxP
    rw [ih]
    simp

/-- Number of opening parentheses (the termination measure's first
component). -/
def parenCount (l : List Char) : Nat := l.countP (· = '(')

theorem parenCount_append (a b : List Char) :
    parenCount (a ++ b) = parenCount a + parenCount b := by
  simp [parenCount, List.countP_append]

theorem parenCount_take_le (l : List Char) (n : Nat) :
    parenCount (l.take n) ≤ parenCount l := by
  conv_rhs => rw [← List.take_append_drop n l]
  rw [parenCount_append]
  exact Nat.le_add_right _ _

theorem parenCount_drop_le (l : List Char) (n : Nat) :
    parenCount (l.drop n) ≤ parenCount l := by
  conv_rhs => rw [← List.take_append_drop n l]
  rw [parenCount_append]
  exact Nat.le_add_left _ _

theorem parenCount_eq_zero {l : List Char} (h : ∀ c ∈ l, decide (c = '(') = false) :
    parenCount l = 0 := by
  simp only [parenCount, List.countP_eq_zero]
  intro a ha
  simp [h a ha]

theorem parenCount_of_rfind_none {l : List Char}
    (h : rfindIdxP (fun c => c = '(') l = none) : parenCount l = 0 :=
  parenCount_eq_zero (rfindIdxP_eq_none h)

theorem parenCount_drop_of_rfind {l : List Char} {start : Nat}
    (h : rfindIdxP (fun c => c = '(') l = some start) :
    parenCount (l.drop (start + 1)) = 0 :=
  parenCount_eq_zero (rfindIdxP_after h)

theorem parenCount_take_lt {l : List Char} {start : Nat}
    (h : rfindIdxP (fun c => c = '(') l = some start) :
    parenCount (l.take start) < parenCount l := by
  obtain ⟨c, hc, hp⟩ := rfindIdxP_found h
  have hlt : start < l.length := rfindIdxP_lt h
  have hdrop : l.drop start = c :: l.drop (start + 1) := by
    rw [List.drop_eq_getElem_cons hlt]
    congr 1
    exact Option.some_inj.mp ((List.getElem?_eq_getElem hlt).symm.trans hc)
  have key : parenCount l = parenCount (l.take start) + parenCount (l.drop start) := by
    rw [← parenCount_append, List.take_append_drop]
  have hone : 1 ≤ parenCount (l.drop start) := by
    rw [hdrop]
    simp [parenCount, List.countP_cons, hp]
  omega

theorem isPre_length {p l : List Char} (h : isPre p l = true) : p.length ≤ l.length := by
  induction p generalizing l with
  | nil => simp
  | cons c p ih =>
    cases l with
    | nil => exact absurd h (by simp [isPre])
    | cons d l =>
      simp only [isPre, Bool.and_eq_true, decide_eq_true_eq] at h
      simpa using ih h.2

/-! ## Calculator plugin (src/plugins/calculator.rs)

The evaluator works on `f64` in the source; it is modelled over exact `ℚ`.
The transcendental operations, the float constants and the float formatting
(used when substituting an evaluated parenthesized group back into the
expression string) are abstract parameters collected in `FloatFns`; the only
constraint, needed for termination exactly as the source needs it, is that
formatted numbers contain no opening parenthesis. Number literals are parsed
per the `f64::from_str` grammar restricted to finite numbers (the `inf`,
`infinity` and `nan` literals have no exact-rational counterpart). -/

theorem lexMeasure_of_lt {a a' b b' c c' : Nat} (ha : a' < a) :
    Prod.Lex (fun x y => x < y) (Prod.Lex (fun x y => x < y) fun x y => x < y)
      (a', b', c') (a, b, c) :=
  Prod.Lex.left _ _ ha

theorem lexMeasure_of_le_lt {a a' b b' c c' : Nat} (ha : a' ≤ a) (hb : b' < b) :
    Prod.Lex (fun x y => x < y) (Prod.Lex (fun x y => x < y) fun x y => x < y)
      (a', b', c') (a, b, c) := by
  rcases Nat.lt_or_ge a' a with h | h
  · exact Prod.Lex.left _ _ h
  · obtain rfl : a' = a := Nat.le_antisymm ha h
    exact Prod.Lex.right _ (Prod.Lex.left _ _ hb)

theorem lexMeasure_of_eq_eq_lt {a b c c' : Nat} (hc : c' < c) :
    Prod.Lex (fun x y => x < y) (Prod.Lex (fun x y => x < y) fun x y => x < y)
      (a, b, c') (a, b, c) :=
  Prod.Lex.right _ (Prod.Lex.right _ hc)

structure FloatFns where
  powf : ℚ → ℚ → ℚ
  sqrt : ℚ → ℚ
  sin : ℚ → ℚ
  cos : ℚ → ℚ
  tan : ℚ → ℚ
  log10 : ℚ → ℚ
  ln : ℚ → ℚ
  piV : ℚ
  eV : ℚ
  fmt : ℚ → List Char
  fmt6 : ℚ → List Char
  fmt_no_paren : ∀ q, '(' ∉ fmt q

theorem parenCount_fmt (F : FloatFns) (q : ℚ) : parenCount (F.fmt q) = 0 :=
  parenCount_eq_zero fun c hc => decide_eq_false fun he => F.fmt_no_paren q (he ▸ hc)

/-- The cleanup at the top of `CalculatorPlugin::evaluate`: trim, drop
spaces, normalize the unicode operators, drop commas. -/
def calcCleanup (expr : List Char) : List Char :=
  let l := trimL expr
  let l := replaceSub [' '] [] l
  let l := replaceSub ['×'] ['*'] l
  let l := replaceSub ['÷'] ['/'] l
  let l := replaceSub ['−'] ['-'] l
  replaceSub [','] [] l

/-- `pos_is_operator`: decides whether a minus sign is a binary operator.
Note the source inspects the position of the last `-` in the whole
expression, whatever position the candidate character occupies. -/
def pos_is_operator (expr : List Char) (c : Char) : Bool :=
  if c ≠ '-' then true
  else
    match rfindIdxP (fun d => d = '-') expr with
    | some pos =>
      if pos = 0 then false
      else
        match expr[pos - 1]? with
        | some prev =>
          ¬(prev = '+' ∨ prev = '-' ∨ prev = '*' ∨ prev = '/' ∨ prev = '^' ∨ prev = '(')
        | none => true
    | none => false

/-- The closure of the addition/subtraction `rfind`. -/
def addsubPred (expr : List Char) (c : Char) : Bool :=
  c = '+' ∨ (c = '-' ∧ pos_is_operator expr c)

/-- Optional sign of a float literal, with its multiplier. -/
def parseSign : List Char → Int × List Char
  | '+' :: r => (1, r)
  | '-' :: r => (-1, r)
  | l => (1, l)

/-- Exponent tail of a float literal: empty, or `(e|E) sign? digits`
consuming the rest of the input. -/
def parseExpPart : List Char → Option Int
  | [] => some 0
  | c :: r =>
    if c = 'e' ∨ c = 'E' then
      let (s, r1) := parseSign r
      let (ds, r2) := spanDigits r1
      if ds = [] ∨ r2 ≠ [] then none else some (s * (digitsToNat ds : Int))
    else none

/-- `str::parse::<f64>` (finite literals), as an exact rational. -/
def parseFloat? (l : List Char) : Option ℚ :=
  let (sgn, r0) := parseSign l
  let (ds, r1) := spanDigits r0
  if ds = [] then
    match r1 with
    | '.' :: t =>
      let (fs, r2) := spanDigits t
      if fs = [] then none
      else (parseExpPart r2).map fun e => (sgn : ℚ) * decimalToRat [] fs * (10 : ℚ) ^ e
    | _ => none
  else
    match r1 with
    | '.' :: t =>
      let (fs, r2) := spanDigits t
      (parseExpPart r2).map fun e => (sgn : ℚ) * decimalToRat ds fs * (10 : ℚ) ^ e
    | _ => (parseExpPart r1).map fun e => (sgn : ℚ) * decimalToRat ds [] * (10 : ℚ) ^ e

mutual

/-- `CalculatorPlugin::parse_expression`: innermost-last parenthesized group
first (substituting its formatted value back into the string), then the
rightmost addition/subtraction split, falling through to
`parseMulOnward` when the split's left side is empty or absent. -/
def parse_expression (F : FloatFns) (expr : List Char) : Option ℚ :=
  match h0 : rfindIdxP (fun c => c = '(') expr with
  | some start =>
    match (expr.drop start).findIdx? (fun c => c = ')') with
    | some iend =>
      let inner := (expr.drop (start + 1)).take (iend - 1)
      match parse_expression F inner with
      | some result =>
        parse_expression F (expr.take start ++ F.fmt result ++ expr.drop (start + iend + 1))
      | none => none
    | none => none
  | none =>
    match h2 : rfindIdxP (addsubPred expr) expr with
    | some pos =>
      match expr[pos]? with
      | some op =>
        if expr.take pos ≠ [] then
          match parse_expression F (expr.take pos) with
          | some left_val =>
            match parse_expression F (expr.drop (pos + 1)) with
            | some right_val =>
              some (if op = '+' then left_val + right_val else left_val - right_val)
            | none => none
          | none => none
        else parseMulOnward F expr
      | none => none
    | none => parseMulOnward F expr
termination_by (parenCount expr, expr.length, 1)
decreasing_by
· -- the inner parenthesized group: strictly fewer opening parentheses
  simp_wf
  apply lexMeasure_of_lt
  have e1 := parenCount_take_le (List.drop (start + 1) expr) (iend - 1)
  have e2 := parenCount_drop_of_rfind h0
  have e3 := parenCount_take_lt h0
  omega
· -- the substituted expression: the last opening parenthesis is gone
  simp_wf
  apply lexMeasure_of_lt
  have e0 : List.drop (start + iend + 1) expr = List.drop iend (List.drop (start + 1) expr) := by
    rw [List.drop_drop]
    congr 1
    omega
  have e1 := parenCount_drop_le (List.drop (start + 1) expr) iend
  have e2 := parenCount_drop_of_rfind h0
  have e3 := parenCount_take_lt h0
  have e4 := parenCount_fmt F result
  rw [parenCount_append, parenCount_append, e0, e4]
  omega
· -- left operand of the addition/subtraction split
  simp_wf
  apply lexMeasure_of_le_lt (parenCount_take_le _ _)
  have := rfindIdxP_lt h2
  omega
· -- right operand of the addition/subtraction split
  simp_wf
  apply lexMeasure_of_le_lt (parenCount_drop_le _ _)
  have := rfindIdxP_lt h2
  omega
· -- fall-through on an empty left operand
  exact lexMeasure_of_eq_eq_lt Nat.zero_lt_one
· -- fall-through when no addition/subtraction split exists
  exact lexMeasure_of_eq_eq_lt Nat.zero_lt_one

/-- The stages of `parse_expression` from the multiplication/division split
on: multiplication/division (division by an evaluated zero yields none),
power, the constants, the function prefixes, and finally a number literal.
The source writes these as later blocks of the same function; they are split
out because the addition/subtraction block can fall through to them. -/
def parseMulOnward (F : FloatFns) (expr : List Char) : Option ℚ :=
  match h3 : rfindIdxP (fun c => c = '*' ∨ c = '/') expr with
  | some pos =>
    match expr[pos]? with
    | some op =>
      match parse_expression F (expr.take pos) with
      | some left_val =>
        match parse_expression F (expr.drop (pos + 1)) with
        | some right_val =>
          if op = '*' then some (left_val * right_val)
          else if right_val = 0 then none
          else some (left_val / right_val)
        | none => none
      | none => none
    | none => none
  | none =>
    match h4 : rfindIdxP (fun c => c = '^') expr with
    | some pos =>
      match parse_expression F (expr.take pos) with
      | some left_val =>
        match parse_expression F (expr.drop (pos + 1)) with
        | some right_val => some (F.powf left_val right_val)
        | none => none
      | none => none
    | none =>
      if expr.map toLowerC = "pi".toList then some F.piV
      else if expr.map toLowerC = "e".toList then some F.eV
      else if hf1 : isPre "sqrt".toList expr then (parse_expression F (expr.drop 4)).map F.sqrt
      else if hf2 : isPre "sin".toList expr then (parse_expression F (expr.drop 3)).map F.sin
      else if hf3 : isPre "cos".toList expr then (parse_expression F (expr.drop 3)).map F.cos
      else if hf4 : isPre "tan".toList expr then (parse_expression F (expr.drop 3)).map F.tan
      else if hf5 : isPre "log".toList expr then (parse_expression F (expr.drop 3)).map F.log10
      else if hf6 : isPre "ln".toList expr then (parse_expression F (expr.drop 2)).map F.ln
      else parseFloat? expr
termination_by (parenCount expr, expr.length, 0)
decreasing_by
· simp_wf
  apply lexMeasure_of_le_lt (parenCount_take_le _ _)
  have := rfindIdxP_lt h3
  omega
· simp_wf
  apply lexMeasure_of_le_lt (parenCount_drop_le _ _)
  have := rfindIdxP_lt h3
  omega
· simp_wf
  apply lexMeasure_of_le_lt (parenCount_take_le _ _)
  have := rfindIdxP_lt h4
  omega
· simp_wf
  apply lexMeasure_of_le_lt (parenCount_drop_le _ _)
  have := rfindIdxP_lt h4
  omega
· simp_wf
  apply lexMeasure_of_le_lt (parenCount_drop_le _ _)
  have e1 := isPre_length hf1
  have e2 : ("sqrt".toList).length = 4 := rfl
  omega
· simp_wf
  apply lexMeasure_of_le_lt (parenCount_drop_le _ _)
  have e1 := isPre_length hf2
  have e2 : ("sin".toList).length = 3 := rfl
  omega
· simp_wf
  apply lexMeasure_of_le_lt (parenCount_drop_le _ _)
  have e1 := isPre_length hf3
  have e2 : ("cos".toList).length = 3 := rfl
  omega
· simp_wf
  apply lexMeasure_of_le_lt (parenCount_drop_le _ _)
  have e1 := isPre_length hf4
  have e2 : ("tan".toList).length = 3 := rfl
  omega
· simp_wf
  apply lexMeasure_of_le_lt (parenCount_drop_le _ _)
  have e1 := isPre_length hf5
  have e2 : ("log".toList).length = 3 := rfl
  omega
· simp_wf
  apply lexMeasure_of_le_lt (parenCount_drop_le _ _)
  have e1 := isPre_length hf6
  have e2 : ("ln".toList).length = 2 := rfl
  omega

end

/-- Decimal digits of a natural number. -/
def natFmt (n : Nat) : List Char := Nat.toDigits 10 n

/-- Decimal rendering of an integer. -/
def intFmt (i : Int) : List Char :=
  if i < 0 then '-' :: natFmt i.natAbs else natFmt i.natAbs

/-- `CalculatorPlugin::evaluate`: cleanup, then parse. -/
def CalculatorPlugin.evaluate (F : FloatFns) (expr : List Char) : Option ℚ :=
  parse_expression F (calcCleanup expr)

/-- The prefix stripping at the top of `CalculatorPlugin::process`: trim,
drop leading `=`, drop repeated `calc ` then `calculate ` prefixes, trim. -/
def calcStripQuery (query : List Char) : List Char :=
  trimL (stripAll "calculate ".toList (stripAll "calc ".toList
    ((trimL query).dropWhile (· = '='))))

/-- `CalculatorPlugin::process`: evaluate the stripped expression; an
integral result is rendered as an integer (`result as i64`; i64 truncation
of huge values is not modelled), otherwise with the six-digit float format
(abstract `fmt6`). -/
def CalculatorPlugin.process (F : FloatFns) (query : String) : Option Answer :=
  let expr := calcStripQuery query.toList
  (CalculatorPlugin.evaluate F expr).map fun result =>
    let formatted :=
      if result.den = 1 then expr ++ (' ' :: '=' :: ' ' :: intFmt result.num)
      else expr ++ (' ' :: '=' :: ' ' :: F.fmt6 result)
    Answer.new (String.mk formatted) "calculator"

/-- The fall-through condition of the addition/subtraction block: either its
`rfind` matches nothing, or it matches at a position whose left side is
empty (the source fetches the operator with `?` first; that fetch always
succeeds for an in-bounds position). -/
def noAddSplit (e : List Char) : Prop :=
  rfindIdxP (addsubPred e) e = none ∨
    ∃ pos op, rfindIdxP (addsubPred e) e = some pos ∧ e[pos]? = some op ∧ e.take pos = []

/-- The evaluation of `e` by `parse_expression` reaches a division whose
divisor has evaluated to zero. The constructors mirror, condition for
condition, exactly the recursion sites of the source that can lead to a
division: into the innermost-last parenthesized group, into the substituted
expression after that group evaluates, into the left or the (reached only
after the left succeeds) right operand of the addition/subtraction split,
into the left or right operand of the multiplication/division split, and the
division site itself with a zero divisor. The power, constant and function
branches need no constructors: they are reached only when the expression
contains no `(`, `*` or `/` at all, and their recursion passes substrings,
so no division can occur below them. -/
inductive ReachesDivZero (F : FloatFns) : List Char → Prop where
  | parenInner (e : List Char) (start iend : Nat)
      (h0 : rfindIdxP (fun c => c = '(') e = some start)
      (h1 : (e.drop start).findIdx? (fun c => c = ')') = some iend)
      (hin : ReachesDivZero F ((e.drop (start + 1)).take (iend - 1))) :
      ReachesDivZero F e
  | parenSubst (e : List Char) (start iend : Nat) (result : ℚ)
      (h0 : rfindIdxP (fun c => c = '(') e = some start)
      (h1 : (e.drop start).findIdx? (fun c => c = ')') = some iend)
      (hin : parse_expression F ((e.drop (start + 1)).take (iend - 1)) = some result)
      (hnew : ReachesDivZero F (e.take start ++ F.fmt result ++ e.drop (start + iend + 1))) :
      ReachesDivZero F e
  | addLeft (e : List Char) (pos : Nat) (op : Char)
      (h0 : rfindIdxP (fun c => c = '(') e = none)
      (h2 : rfindIdxP (addsubPred e) e = some pos)
      (hop : e[pos]? = some op)
      (hne : e.take pos ≠ [])
      (hin : ReachesDivZero F (e.take pos)) :
      ReachesDivZero F e
  | addRight (e : List Char) (pos : Nat) (op : Char) (lv : ℚ)
      (h0 : rfindIdxP (fun c => c = '(') e = none)
      (h2 : rfindIdxP (addsubPred e) e = some pos)
      (hop : e[pos]? = some op)
      (hne : e.take pos ≠ [])
      (hl : parse_expression F (e.take pos) = some lv)
      (hin : ReachesDivZero F (e.drop (pos + 1))) :
      ReachesDivZero F e
  | mulLeft (e : List Char) (pos : Nat) (op : Char)
      (h0 : rfindIdxP (fun c => c = '(') e = none)
      (hA : noAddSplit e)
      (h3 : rfindIdxP (fun c => c = '*' ∨ c = '/') e = some pos)
      (hop : e[pos]? = some op)
      (hin : ReachesDivZero F (e.take pos)) :
      ReachesDivZero F e
  | mulRight (e : List Char) (pos : Nat) (op : Char) (lv : ℚ)
      (h0 : rfindIdxP (fun c => c = '(') e = none)
      (hA : noAddSplit e)
      (h3 : rfindIdxP (fun c => c = '*' ∨ c = '/') e = some pos)
      (hop : e[pos]? = some op)
      (hl : parse_expression F (e.take pos) = some lv)
      (hin : ReachesDivZero F (e.drop (pos + 1))) :
      ReachesDivZero F e
  | divZero (e : List Char) (pos : Nat) (lv : ℚ)
      (h0 : rfindIdxP (fun c => c = '(') e = none)
      (hA : noAddSplit e)
      (h3 : rfindIdxP (fun c => c = '*' ∨ c = '/') e = some pos)
      (hop : e[pos]? = some '/')
      (hl : parse_expression F (e.take pos) = some lv)
      (hr : parse_expression F (e.drop (pos + 1)) = some 0) :
      ReachesDivZero F e

/-! ## Spec-level predicates and concrete fixtures -/

/-- The spec's Result invariant: the originating engine is a member of the
engines set, and the engines set and positions list have equal size. -/
def wellFormedResult (r : Result) : Prop :=
  r.engine ∈ r.engines ∧ r.engines.card = r.positions.length

instance (r : Result) : Decidable (wellFormedResult r) :=
  inferInstanceAs (Decidable (_ ∧ _))

/-- Fixture: the repo's own dedup test pair (same URL up to a trailing
slash, different engines). -/
def exResultA : Result := (Result.new "https://example.com" "Example" "google").with_position 1

def exResultB : Result := (Result.new "https://example.com/" "Example Site" "bing").with_position 2

/-- Fixture: a result whose engines and positions suit the two-engine score
formula. -/
def exScoredR : Result :=
  { Result.new "https://example.com" "Example" "google" with
      engines := {"google", "bing"}, positions := [1, 2] }

def exWeights1 : List (String × ℚ) := [("google", 1), ("bing", 1)]

/-- Fixtures: the same engine returning the same URL at two positions. -/
def exDupA : Result := (Result.new "https://example.com" "Example" "google").with_position 1

def exDupB : Result := (Result.new "https://example.com" "Example" "google").with_position 2

/-- Fixture: a second engine returning the same URL (disjoint engine sets). -/
def exIndepB : Result := (Result.new "https://example.com" "Example" "bing").with_position 2

/-- Fixtures: two results with equal scores under empty weights. -/
def exTieA : Result := (Result.new "https://aaa.com" "A" "google").with_position 1

def exTieB : Result := (Result.new "https://bbb.com" "B" "google").with_position 1

def exTieContainer : ResultContainer :=
  (ResultContainer.new.add_result exTieA).add_result exTieB

/-- Fixture registry/outcomes/queries for the executor claims. -/
def exC4Registry : ExecRegistry := { engineNames := ["google"], weights := fun _ => 1 }

def exC4Outcomes : String → EngineOutcome := fun _ => EngineOutcome.timedOut

def exC4Query : SearchQuery :=
  { query := "foo", engine_refs := [⟨"google", "general"⟩], lang := "all", safesearch := 0,
    pageno := 1, time_range := none, timeout_limit := none, external_bang := some "wa",
    redirect_to_first := false }

def exC4GQuery : SearchQuery :=
  { query := "foo bar", engine_refs := [], lang := "all", safesearch := 0,
    pageno := 1, time_range := none, timeout_limit := none, external_bang := some "g",
    redirect_to_first := false }

/-- Fixture plugins: one that modifies the query, one that answers. -/
def exAnswerP : Answer := Answer.new "the answer" "p2"

def exPluginMod : Plugin :=
  { info := { id := "mod", name := "Mod", description := "modifies", default_on := true }
    pre_search := fun _ => PreSearchResult.ModifyQuery "changed" }

def exPluginAns : Plugin :=
  { info := { id := "ans", name := "Ans", description := "answers", default_on := true }
    pre_search := fun _ => PreSearchResult.Answer exAnswerP }

def exPluginRegistry : PluginRegistry :=
  (PluginRegistry.new.register exPluginMod).register exPluginAns

def exSimpleQuery : SearchQuery :=
  { query := "q", engine_refs := [], lang := "all", safesearch := 0, pageno := 1,
    time_range := none, timeout_limit := none, external_bang := none,
    redirect_to_first := false }

/-- Fixture float operations for calculator witnesses (the claims hold for
every choice). -/
def exFloatFns : FloatFns :=
  { powf := fun _ _ => 0, sqrt := fun _ => 0, sin := fun _ => 0, cos := fun _ => 0,
    tan := fun _ => 0, log10 := fun _ => 0, ln := fun _ => 0, piV := 0, eV := 0,
    fmt := fun _ => ['0'], fmt6 := fun _ => ['0'],
    fmt_no_paren := fun _ => by simp }

/-! ## Claim C1: dedup merge in add_result -/

/-- C1: for two results A and B (each fresh from `Result::new`, so its
engines set is the singleton of its engine) whose URLs normalize to the same
dedup key, `add_result(A); add_result(B)` leaves exactly one entry under
that key, namely `A.merge B`, whose engines set is `{A.engine, B.engine}`,
whose positions are `A.positions ++ B.positions`, and whose content is
A's content when present, otherwise B's. -/
theorem add_result_dedup_merge (A B : Result)
    (hA : A.engines = {A.engine}) (hB : B.engines = {B.engine})
    (hkey : url_hash A.url = url_hash B.url) :
    ((ResultContainer.new.add_result A).add_result B).results_map =
        [(url_hash A.url, A.merge B)] ∧
      (A.merge B).engines = {A.engine, B.engine} ∧
      (A.merge B).positions = A.positions ++ B.positions ∧
      (A.merge B).content = if A.content.isSome then A.content else B.content := by
  refine ⟨?_, ?_, rfl, ?_⟩
  · simp only [ResultContainer.add_result, ResultContainer.new, updateEntry]
    rw [if_pos hkey]
  · rw [Result.merge]
    simp only [hA, hB]
    rw [← Finset.insert_eq]
  · rw [Result.merge]
    cases hAc : A.content <;> cases hBc : B.content <;> simp

/-- C1 witness: the repo's own dedup test inputs. -/
theorem add_result_dedup_merge_witness :
    url_hash exResultA.url = url_hash exResultB.url ∧
      ((ResultContainer.new.add_result exResultA).add_result exResultB).results_map =
        [(url_hash exResultA.url, exResultA.merge exResultB)] :=
  ⟨by decide, (add_result_dedup_merge exResultA exResultB (by decide) (by decide) (by decide)).1⟩

/-! ## Claim C2: the score formula -/

/-- C2: `calculate_score` sets `weight` to the product of the known engine
weights times the engine count and the score to the reciprocal-rank sum; in
particular a result returned by exactly two engines, both of weight 1, at
positions p1 and p2 scores `2 * (1/p1 + 1/p2)`. -/
theorem calculate_score_two_engines (e1 e2 : String) (p1 p2 : Nat)
    (w : List (String × ℚ)) (r : Result) (hne : e1 ≠ e2)
    (h1 : lookupWeight w e1 = some 1) (h2 : lookupWeight w e2 = some 1)
    (heng : r.engines = {e1, e2}) (hpos : r.positions = [p1, p2]) :
    (r.calculate_score w).score = 2 * (1 / (p1 : ℚ) + 1 / (p2 : ℚ)) := by
  rw [Result.calculate_score]
  simp only [heng, hpos]
  have hprod : (∏ e in ({e1, e2} : Finset String), ((lookupWeight w e).getD 1)) = 1 := by
    rw [show ({e1, e2} : Finset String) = insert e1 {e2} from rfl,
      Finset.prod_insert (by simp [hne]), Finset.prod_singleton, h1, h2]
    norm_num
  have hcard : ({e1, e2} : Finset String).card = 2 := by
    rw [show ({e1, e2} : Finset String) = insert e1 {e2} from rfl,
      Finset.card_insert_of_not_mem (by simp [hne]), Finset.card_singleton]
  rw [hprod, hcard]
  simp only [List.map_cons, List.map_nil, List.sum_cons, List.sum_nil, Nat.cast_ofNat]
  ring

/-- C2 witness: two weight-1 engines at positions 1 and 2 give score 3. -/
theorem calculate_score_two_engines_witness :
    (exScoredR.calculate_score exWeights1).score = 2 * (1 / (1 : ℚ) + 1 / (2 : ℚ)) :=
  calculate_score_two_engines "google" "bing" 1 2 exWeights1 exScoredR
    (by decide) rfl rfl rfl rfl

/-! ## Claim C10: engines missing from the weight map -/

/-- The score only depends on the weight lookups of the result's engines (a
helper shared by the C10 conjuncts). -/
theorem calculate_score_congr (r : Result) (w w' : List (String × ℚ))
    (h : ∀ x ∈ r.engines, (lookupWeight w' x).getD 1 = (lookupWeight w x).getD 1) :
    (r.calculate_score w').score = (r.calculate_score w).score := by
  rw [Result.calculate_score, Result.calculate_score]
  simp only
  rw [Finset.prod_congr rfl h]

/-- C10: an engine absent from the weight map contributes a factor of 1:
inserting an explicit weight-1 entry for a missing engine leaves every
score unchanged, and in general the score depends only on the lookups of
the result's own engines. -/
theorem calculate_score_missing_weight (w : List (String × ℚ)) (r : Result) (e : String)
    (hmiss : lookupWeight w e = none) :
    (r.calculate_score ((e, 1) :: w)).score = (r.calculate_score w).score ∧
      ∀ w', (∀ x ∈ r.engines, lookupWeight w' x = lookupWeight w x) →
        (r.calculate_score w').score = (r.calculate_score w).score := by
  constructor
  · refine calculate_score_congr r w ((e, 1) :: w) fun x _ => ?_
    by_cases hx : x = e
    · subst hx
      rw [hmiss]
      simp [lookupWeight]
    · simp [lookupWeight, Ne.symm hx]
  · intro w' hw
    exact calculate_score_congr r w w' fun x hx => by rw [hw x hx]

/-- C10 witness: a result from an engine with no weight entry keeps the same
score as with an explicit weight-1 entry. -/
theorem calculate_score_missing_weight_witness :
    (exTieA.calculate_score [("google", 1)]).score = (exTieA.calculate_score []).score :=
  (calculate_score_missing_weight [] exTieA "google" rfl).1

/-! ## Claim C7: the engines/positions invariant -/

theorem updateEntry_mem {key : String} {r : Result} {m : List (String × Result)}
    {e : String × Result} (he : e ∈ updateEntry key r m) :
    e ∈ m ∨ (∃ ex, (key, ex) ∈ m ∧ e = (key, ex.merge r)) ∨ e = (key, r) := by
  induction m with
  | nil =>
    simp only [updateEntry, List.mem_singleton] at he
    exact Or.inr (Or.inr he)
  | cons hd tl ih =>
    obtain ⟨k, ex⟩ := hd
    by_cases hk : k = key
    · subst hk
      simp only [updateEntry, if_pos rfl] at he
      rcases List.mem_cons.mp he with rfl | hmem
      · exact Or.inr (Or.inl ⟨ex, List.mem_cons_self _ _, rfl⟩)
      · exact Or.inl (List.mem_cons_of_mem _ hmem)
    · simp only [updateEntry, if_neg hk] at he
      rcases List.mem_cons.mp he with rfl | hmem
      · exact Or.inl (List.mem_cons_self _ _)
      · rcases ih hmem with h | ⟨ex2, hex2, hee⟩ | hee
        · exact Or.inl (List.mem_cons_of_mem _ h)
        · exact Or.inr (Or.inl ⟨ex2, List.mem_cons_of_mem _ hex2, hee⟩)
        · exact Or.inr (Or.inr hee)

/-- Merging results with disjoint engine sets preserves the invariant. -/
theorem merge_wellFormed {a b : Result} (ha : wellFormedResult a) (hb : wellFormedResult b)
    (hd : Disjoint a.engines b.engines) : wellFormedResult (a.merge b) := by
  obtain ⟨ha1, ha2⟩ := ha
  obtain ⟨hb1, hb2⟩ := hb
  constructor
  · simpa [Result.merge] using Finset.mem_union_left _ ha1
  · simp [Result.merge, Finset.card_union_of_disjoint hd, ha2, hb2]

theorem extend_results_invariant_aux (rs : List Result) (c : ResultContainer)
    (hc : ∀ e ∈ c.results_map, wellFormedResult e.2)
    (hsep : ∀ e ∈ c.results_map, ∀ x ∈ rs, url_hash x.url = e.1 →
      Disjoint e.2.engines x.engines)
    (hwf : ∀ r ∈ rs, wellFormedResult r)
    (hdis : rs.Pairwise fun a b => url_hash a.url = url_hash b.url →
      Disjoint a.engines b.engines) :
    ∀ e ∈ (rs.foldl ResultContainer.add_result c).results_map, wellFormedResult e.2 := by
  induction rs generalizing c with
  | nil => simpa using hc
  | cons x rs ih =>
    rw [List.foldl_cons]
    obtain ⟨hdx, hdis2⟩ := List.pairwise_cons.mp hdis
    have hwx : wellFormedResult x := hwf x (List.mem_cons_self _ _)
    have hmem : ∀ e ∈ (c.add_result x).results_map,
        e ∈ c.results_map ∨
          (∃ ex, (url_hash x.url, ex) ∈ c.results_map ∧ e = (url_hash x.url, ex.merge x)) ∨
          e = (url_hash x.url, x) := fun e he => updateEntry_mem he
    refine ih (c.add_result x) ?_ ?_ (fun r hr => hwf r (List.mem_cons_of_mem _ hr)) hdis2
    · intro e he
      rcases hmem e he with h | ⟨ex, hex, rfl⟩ | rfl
      · exact hc e h
      · exact merge_wellFormed (hc _ hex) hwx (hsep _ hex x (List.mem_cons_self _ _) rfl)
      · exact hwx
    · intro e he y hy hky
      rcases hmem e he with h | ⟨ex, hex, rfl⟩ | rfl
      · exact hsep e h y (List.mem_cons_of_mem _ hy) hky
      · have d1 : Disjoint ex.engines y.engines :=
          hsep _ hex y (List.mem_cons_of_mem _ hy) hky
        have d2 : Disjoint x.engines y.engines := hdx y hy hky.symm
        simpa [Result.merge, Finset.disjoint_union_left] using ⟨d1, d2⟩
      · exact hdx y hy hky.symm

/-- C7 counterexample: both inputs satisfy the invariant, but after the same
engine contributes the same URL at two positions the merged entry has one
engine and two positions. -/
theorem merge_invariant_counterexample :
    wellFormedResult exDupA ∧ wellFormedResult exDupB ∧
      ¬ (∀ r ∈ ((ResultContainer.new.add_result exDupA).add_result exDupB).storedResults,
          wellFormedResult r) := by decide

/-- Merging on key collisions never loses `engine ∈ engines`: the merged
entry keeps the stored result's `engine` field and unions the engine sets. -/
theorem extend_results_engine_mem_aux (rs : List Result) (c : ResultContainer)
    (hc : ∀ e ∈ c.results_map, e.2.engine ∈ e.2.engines)
    (hr : ∀ r ∈ rs, r.engine ∈ r.engines) :
    ∀ e ∈ (rs.foldl ResultContainer.add_result c).results_map,
      e.2.engine ∈ e.2.engines := by
  induction rs generalizing c with
  | nil => simpa using hc
  | cons x rs ih =>
    rw [List.foldl_cons]
    refine ih (c.add_result x) ?_ (fun r hmm => hr r (List.mem_cons_of_mem _ hmm))
    intro e he
    rcases updateEntry_mem he with h | ⟨ex, hex, rfl⟩ | rfl
    · exact hc e h
    · simpa [Result.merge] using Finset.mem_union_left _ (hc _ hex)
    · exact hr x (List.mem_cons_self _ _)

/-- C7 amended: `engine ∈ engines` holds for every stored result whenever
every added result satisfies it (as `Result::new` guarantees), with no
disjointness assumption — a colliding merge keeps the stored engine inside
the engine union; `|engines| = |positions|` additionally requires that
results colliding on a dedup key have pairwise disjoint engine sets (the
counterexample shows it fails otherwise: engines is a set, positions a
list). -/
theorem extend_results_invariant (rs : List Result) :
    ((∀ r ∈ rs, r.engine ∈ r.engines) →
      ∀ r ∈ (ResultContainer.new.extend_results rs).storedResults,
        r.engine ∈ r.engines) ∧
    ((∀ r ∈ rs, wellFormedResult r) →
      (rs.Pairwise fun a b => url_hash a.url = url_hash b.url →
        Disjoint a.engines b.engines) →
      ∀ r ∈ (ResultContainer.new.extend_results rs).storedResults,
        wellFormedResult r) := by
  constructor
  · intro hr r hmem
    obtain ⟨e, he, rfl⟩ := List.mem_map.mp hmem
    exact extend_results_engine_mem_aux rs ResultContainer.new
      (by simp [ResultContainer.new]) hr e he
  · intro hwf hdis r hmem
    obtain ⟨e, he, rfl⟩ := List.mem_map.mp hmem
    exact extend_results_invariant_aux rs ResultContainer.new (by simp [ResultContainer.new])
      (by simp [ResultContainer.new]) hwf hdis e he

/-- C7 amended witness: a same-engine collision (no disjointness) still keeps
`engine ∈ engines` for the merged entry, and a disjoint-engine collision
keeps the full invariant. -/
theorem extend_results_invariant_witness :
    (exDupA.merge exDupB).engine ∈ (exDupA.merge exDupB).engines ∧
      wellFormedResult (exDupA.merge exIndepB) :=
  ⟨(extend_results_invariant [exDupA, exDupB]).1 (by decide)
      (exDupA.merge exDupB) (by decide),
    (extend_results_invariant [exDupA, exIndepB]).2 (by decide) (by decide)
      (exDupA.merge exIndepB) (by decide)⟩

/-! ## Claim C5: ordering of get_ordered_results -/

/-- Score of a single-engine result with one position under empty weights. -/
theorem calculate_score_single (r : Result) (e : String) (p : Nat)
    (heng : r.engines = {e}) (hpos : r.positions = [p]) :
    (r.calculate_score []).score = 1 / (p : ℚ) := by
  rw [Result.calculate_score]
  simp [heng, hpos, lookupWeight]

/-- C5 counterexample: the container's stored values reach the sort in the
`HashMap`'s unspecified iteration order; for the reversed order (a valid
permutation of the stored values) the two equal-score results come out in
reversed, not insertion, order. -/
theorem get_ordered_results_tie_cex :
    ¬ ∀ iterOrder, iterOrder.Perm exTieContainer.storedResults →
        exTieContainer.get_ordered_results iterOrder =
          [exTieA.calculate_score exTieContainer.engine_weights,
           exTieB.calculate_score exTieContainer.engine_weights] := by
  intro hclaim
  have hperm : List.Perm [exTieB, exTieA] exTieContainer.storedResults := by decide
  have h1 := hclaim [exTieB, exTieA] hperm
  have hw : exTieContainer.engine_weights = [] := rfl
  have hsA : (exTieA.calculate_score exTieContainer.engine_weights).score = 1 := by
    rw [hw, calculate_score_single exTieA "google" 1 rfl rfl]
    norm_num
  have hsB : (exTieB.calculate_score exTieContainer.engine_weights).score = 1 := by
    rw [hw, calculate_score_single exTieB "google" 1 rfl rfl]
    norm_num
  have h2 : exTieContainer.get_ordered_results [exTieB, exTieA] =
      [exTieB.calculate_score exTieContainer.engine_weights,
       exTieA.calculate_score exTieContainer.engine_weights] := by
    rw [ResultContainer.get_ordered_results]
    simp [List.insertionSort, List.orderedInsert, scoreGE, hsA, hsB]
  rw [h2] at h1
  have heq : exTieB.calculate_score exTieContainer.engine_weights =
      exTieA.calculate_score exTieContainer.engine_weights :=
    (List.cons_eq_cons.mp h1).1
  have hurl := congrArg Result.url heq
  rw [Result.calculate_score, Result.calculate_score] at hurl
  exact absurd hurl (by decide)

/-- Inserting into a sorted-by-`scoreGE` list preserves, per score value, the
relative order of equal-score elements: the insertion lands before exactly the
strictly smaller scores. -/
theorem filter_score_orderedInsert (x : Result) (l : List Result) (q : ℚ) :
    (List.orderedInsert scoreGE x l).filter (fun r => r.score = q) =
      if x.score = q then x :: l.filter (fun r => r.score = q)
      else l.filter (fun r => r.score = q) := by
  induction l with
  | nil =>
    by_cases hx : x.score = q <;> simp [List.orderedInsert, hx]
  | cons b t ih =>
    simp only [List.orderedInsert]
    by_cases hge : scoreGE x b
    · rw [if_pos hge]
      by_cases hx : x.score = q <;> simp [List.filter_cons, hx]
    · rw [if_neg hge]
      have hbx : x.score < b.score := lt_of_not_le hge
      by_cases hx : x.score = q
      · have hbq : ¬ (b.score = q) := by
          intro hbq
          rw [hx, hbq] at hbx
          exact lt_irrefl q hbx
        simp [List.filter_cons, hbq, ih, hx]
      · simp [List.filter_cons, ih, hx]

/-- Insertion sort is stable: for every score value, the sorted output lists
the elements of that score in exactly their input order. -/
theorem filter_score_insertionSort (l : List Result) (q : ℚ) :
    (List.insertionSort scoreGE l).filter (fun r => r.score = q) =
      l.filter (fun r => r.score = q) := by
  induction l with
  | nil => rfl
  | cons b t ih =>
    rw [List.insertionSort, filter_score_orderedInsert]
    by_cases hb : b.score = q <;> simp [List.filter_cons, hb, ih]

theorem score_le_head_of_sorted {y : Result} {t : List Result} {b : Result}
    (hs : List.Sorted scoreGE (y :: t)) (hb : b ∈ y :: t) : b.score ≤ y.score := by
  rcases List.mem_cons.mp hb with rfl | hbt
  · exact le_refl _
  · exact (List.sorted_cons.mp hs).1 b hbt

/-- Two sorted lists with identical per-score sublists are identical: a
stable descending sort is uniquely determined by its input sequence. -/
theorem sorted_filter_score_unique : ∀ (l1 l2 : List Result),
    List.Sorted scoreGE l1 → List.Sorted scoreGE l2 →
    (∀ q : ℚ, l1.filter (fun r => r.score = q) = l2.filter (fun r => r.score = q)) →
    l1 = l2
  | [], [], _, _, _ => rfl
  | [], b :: t, _, _, hq => by
    have h := hq b.score
    simp [List.filter_cons] at h
  | x :: t1, [], _, _, hq => by
    have h := hq x.score
    simp [List.filter_cons] at h
  | x :: t1, y :: t2, hs1, hs2, hq => by
    have hfx : (x :: t1).filter (fun r => r.score = x.score) =
        x :: t1.filter (fun r => r.score = x.score) := by
      simp [List.filter_cons]
    have hfy : (y :: t2).filter (fun r => r.score = y.score) =
        y :: t2.filter (fun r => r.score = y.score) := by
      simp [List.filter_cons]
    have hx2 : x ∈ y :: t2 := by
      have h := (hq x.score).symm.trans hfx
      have hmem : x ∈ (y :: t2).filter (fun r => r.score = x.score) := by
        rw [h]
        exact List.mem_cons_self _ _
      exact List.mem_of_mem_filter hmem
    have hy1 : y ∈ x :: t1 := by
      have h := (hq y.score).trans hfy
      have hmem : y ∈ (x :: t1).filter (fun r => r.score = y.score) := by
        rw [h]
        exact List.mem_cons_self _ _
      exact List.mem_of_mem_filter hmem
    have hsc : x.score = y.score :=
      le_antisymm (score_le_head_of_sorted hs2 hx2) (score_le_head_of_sorted hs1 hy1)
    have hkey := hq x.score
    rw [hfx, List.filter_cons, if_pos (by simp [hsc])] at hkey
    obtain ⟨hxy, htail⟩ := List.cons_eq_cons.mp hkey
    have htails : ∀ q : ℚ,
        t1.filter (fun r => r.score = q) = t2.filter (fun r => r.score = q) := by
      intro q
      by_cases hqx : q = x.score
      · subst hqx
        exact htail
      · have hxq : ¬ (x.score = q) := fun hc => hqx hc.symm
        have hyq : ¬ (y.score = q) := fun hc => hqx ((hsc.trans hc).symm)
        have h := hq q
        simp only [List.filter_cons] at h
        rw [if_neg (by simp [hxq]), if_neg (by simp [hyq])] at h
        exact h
    rw [hxy, sorted_filter_score_unique t1 t2 (List.sorted_cons.mp hs1).2
      (List.sorted_cons.mp hs2).2 htails]

/-- C5 amended: the output of `get_ordered_results` is sorted by descending
score and is a permutation of the scored `values()` iteration sequence;
within each score value it lists the equal-score results in exactly the
order the map iteration delivered them (the sort is stable over the
iteration order, not over insertion order); and any sorted output with the
same per-score sublists equals it, so the output is uniquely determined by
the iteration sequence — an unchanged container iterating in a fixed order
yields the identical result list on every call. -/
theorem get_ordered_results_stable (c : ResultContainer) (iterOrder : List Result) :
    List.Sorted scoreGE (c.get_ordered_results iterOrder) ∧
      (c.get_ordered_results iterOrder).Perm
        (iterOrder.map fun r => r.calculate_score c.engine_weights) ∧
      (∀ q : ℚ, (c.get_ordered_results iterOrder).filter (fun r => r.score = q) =
        (iterOrder.map fun r => r.calculate_score c.engine_weights).filter
          (fun r => r.score = q)) ∧
      (∀ out : List Result, List.Sorted scoreGE out →
        (∀ q : ℚ, out.filter (fun r => r.score = q) =
          (iterOrder.map fun r => r.calculate_score c.engine_weights).filter
            (fun r => r.score = q)) →
        out = c.get_ordered_results iterOrder) := by
  refine ⟨List.sorted_insertionSort scoreGE _, List.perm_insertionSort scoreGE _,
    fun q => filter_score_insertionSort _ q, ?_⟩
  intro out hs hf
  exact sorted_filter_score_unique out _ hs (List.sorted_insertionSort scoreGE _)
    (fun q => (hf q).trans (filter_score_insertionSort _ q).symm)

/-- C5 witness: on the tie container iterated as `[exTieB, exTieA]` (both
score 1), the uniqueness conjunct pins the output to that very iteration
order — the tie is broken by iteration order, not insertion order. -/
theorem get_ordered_results_stable_witness :
    exTieContainer.get_ordered_results [exTieB, exTieA] =
      [exTieB.calculate_score exTieContainer.engine_weights,
       exTieA.calculate_score exTieContainer.engine_weights] := by
  have hw : exTieContainer.engine_weights = [] := rfl
  have hsA : (exTieA.calculate_score exTieContainer.engine_weights).score = 1 := by
    rw [hw, calculate_score_single exTieA "google" 1 rfl rfl]
    norm_num
  have hsB : (exTieB.calculate_score exTieContainer.engine_weights).score = 1 := by
    rw [hw, calculate_score_single exTieB "google" 1 rfl rfl]
    norm_num
  have hsorted : List.Sorted scoreGE
      [exTieB.calculate_score exTieContainer.engine_weights,
       exTieA.calculate_score exTieContainer.engine_weights] := by
    simp [List.sorted_cons, scoreGE, hsA, hsB]
  exact ((get_ordered_results_stable exTieContainer [exTieB, exTieA]).2.2.2
    [exTieB.calculate_score exTieContainer.engine_weights,
     exTieA.calculate_score exTieContainer.engine_weights] hsorted (fun _ => rfl)).symm

/-! ## Claim C6: queries without recognized modifiers -/

/-- A scanner whose anchored matcher fires at no position of the input
returns the input unchanged with no captures. -/
theorem scanRe_no_match {α : Type} (m : List Char → Option (α × Nat)) (l : List Char)
    (h : ∀ i, i < l.length → m (l.drop i) = none) : scanRe m 0 l = ([], l) := by
  induction l with
  | nil => rfl
  | cons c rest ih =>
    unfold scanRe
    have h0 : m (c :: rest) = none := h 0 (Nat.succ_pos _)
    rw [h0, ih fun i hi => h (i + 1) (Nat.succ_lt_succ hi)]

theorem scanTimeRange_none : ∀ (pats : List (List Char × TimeRange)) (q : List Char),
    (∀ p ∈ pats, containsSub p.1 q = false) → scanTimeRange pats q = (none, q)
  | [], _, _ => rfl
  | (pat, range) :: rest, q, h => by
    unfold scanTimeRange
    have hc : containsSub pat q = false := h (pat, range) (List.mem_cons_self _ _)
    rw [hc]
    simp only [Bool.false_eq_true, if_false]
    exact scanTimeRange_none rest q fun p hp => h p (List.mem_cons_of_mem _ hp)

theorem scanCategories_none : ∀ (pats : List (List Char × String)) (q : List Char),
    (∀ p ∈ pats, containsSub p.1 q = false) → scanCategories pats q = ([], q)
  | [], _, _ => rfl
  | (pat, cat) :: rest, q, h => by
    unfold scanCategories
    have hc : containsSub pat q = false := h (pat, cat) (List.mem_cons_self _ _)
    rw [hc]
    simp only [Bool.false_eq_true, if_false]
    exact scanCategories_none rest q fun p hp => h p (List.mem_cons_of_mem _ hp)

/-- C6 counterexample: `"hello !Foo"` contains no recognized modifier, yet
its clean query is not the whitespace-normalized raw query: the unknown bang
is lowercased and moved to the front. -/
theorem clean_query_preserve_cex :
    (ParsedQuery.parse "hello !Foo").query = "!foo hello" ∧
      normWsStr "hello !Foo" = "hello !Foo" ∧
      (ParsedQuery.parse "hello !Foo").query ≠ normWsStr "hello !Foo" := by decide

/-- C6 amended: for every raw query in which no modifier is recognized —
the language regex and the timeout regex match at no position, none of the
safesearch, time-range or category-bang substrings occurs, the redirect
prefixes are absent, and the engine-bang regex matches at no position (this
admits queries containing `:` or `<`, such as `"a : b <yz"`) — the clean
query is exactly the whitespace-normalized raw query. Unknown `!`-tokens are
excluded: the counterexample shows they are lowercased and moved to the
front rather than preserved in place. -/
theorem clean_query_no_modifiers (raw : String)
    (hlang : ∀ i, i < raw.toList.length → langAt (raw.toList.drop i) = none)
    (hto : ∀ i, i < raw.toList.length → timeoutAt (raw.toList.drop i) = none)
    (hss : containsSub "!safesearch".toList raw.toList = false)
    (hnss : containsSub "!nosafesearch".toList raw.toList = false)
    (htr : ∀ p ∈ timeRangesL, containsSub p.1 raw.toList = false)
    (hrd1 : startsBangBlank raw.toList = false)
    (hrd2 : isPre ['!', '!'] raw.toList = false)
    (hcat : ∀ p ∈ categoryBangsL, containsSub p.1 raw.toList = false)
    (hbang : ∀ i, i < raw.toList.length → bangAt (raw.toList.drop i) = none) :
    (ParsedQuery.parse raw).query = normWsStr raw := by
  have h1 : scanRe langAt 0 raw.toList = ([], raw.toList) := scanRe_no_match _ _ hlang
  have h2 : scanRe timeoutAt 0 raw.toList = ([], raw.toList) := scanRe_no_match _ _ hto
  have h5 : scanTimeRange timeRangesL raw.toList = (none, raw.toList) :=
    scanTimeRange_none _ _ htr
  have h8 : scanCategories categoryBangsL raw.toList = ([], raw.toList) :=
    scanCategories_none _ _ hcat
  have h9 : scanRe bangAt 0 raw.toList = ([], raw.toList) := scanRe_no_match _ _ hbang
  unfold ParsedQuery.parse
  simp only [h1, h2, hss, hnss, h5, hrd1, hrd2, h8, h9, Bool.false_eq_true, if_false,
    procBangCaps, prependBangs, List.foldl_nil]
  rfl

set_option synthInstance.maxSize 512 in
/-- C6 amended witness: a query containing `:` and `<` that no scanner
recognizes keeps its (whitespace-normalized) text. -/
theorem clean_query_no_modifiers_witness :
    (ParsedQuery.parse "a : b <yz").query = normWsStr "a : b <yz" :=
  clean_query_no_modifiers "a : b <yz" (by decide) (by decide) (by decide) (by decide)
    (by decide) (by decide) (by decide) (by decide) (by decide)

/-! ## Claim C3: external bangs versus engine shortcuts -/

/-- C3, evaluated at the failing input: `g` is on the external allow-list,
but the parser consults the engine-shortcut map first, so `"!g foo bar"`
selects the google engine and leaves `external_bang` unset (the module doc
and the spec promise `external_bang = "g"`). A token on the allow-list that
is not an engine shortcut, such as `w`, does become an external bang. -/
theorem parse_external_bang_shadowed :
    (ParsedQuery.parse "!g foo bar").external_bang = none ∧
      (ParsedQuery.parse "!g foo bar").engines = ["google"] ∧
      (ParsedQuery.parse "!g foo bar").query = "foo bar" ∧
      is_external_bang "g" = true ∧
      (ParsedQuery.parse "!w foo bar").external_bang = some "w" := by decide

/-! ## Claim C4: external-bang short circuit in the executor -/

/-- C4 counterexample: `wa` is accepted by the parser's allow-list but has
no arm in `get_external_bang_url`, so a query with `external_bang = "wa"`
does not populate the redirect slot and the engines do run (here one engine
times out and is recorded). -/
theorem execute_wa_bang_cex :
    exC4Query.external_bang = some "wa" ∧
      (Search.execute exC4Registry exC4Outcomes exC4Query).redirect_url = none ∧
      (Search.execute exC4Registry exC4Outcomes exC4Query).unresponsive_engines =
        [⟨"google", EngineError.Timeout⟩] := by decide

/-- C4 amended: whenever `get_external_bang_url` resolves the bang (every
allow-listed bang except `wa`), `execute` stores the resolved URL in the
redirect slot and returns with no results, timings, unresponsive entries or
answers. -/
theorem execute_external_bang_redirect (reg : ExecRegistry)
    (outcomes : String → EngineOutcome) (query : SearchQuery) (b u : String)
    (hb : query.external_bang = some b)
    (hu : get_external_bang_url b query.query = some u) :
    (Search.execute reg outcomes query).redirect_url = some u ∧
      (Search.execute reg outcomes query).results_map = [] ∧
      (Search.execute reg outcomes query).timings = [] ∧
      (Search.execute reg outcomes query).unresponsive_engines = [] ∧
      (Search.execute reg outcomes query).answers = [] := by
  unfold Search.execute
  rw [hb]
  simp [hu, ResultContainer.set_redirect, ResultContainer.with_weights,
    ResultContainer.new]

/-- C4 witness: the spec's own example redirect URL. -/
theorem execute_external_bang_redirect_witness :
    (Search.execute exC4Registry exC4Outcomes exC4GQuery).redirect_url =
      some "https://www.google.com/search?q=foo%20bar" :=
  (execute_external_bang_redirect exC4Registry exC4Outcomes exC4GQuery "g"
    "https://www.google.com/search?q=foo%20bar" rfl (by decide)).1

/-! ## Claim C8: the pre_search pipeline -/

/-- C8 counterexample: with a first plugin voting `ModifyQuery` and a second
voting `Answer`, the code runs the second plugin and returns its answer,
while the claim's reading (pipeline ends at the first non-Continue verdict,
`preSearchClaimLoop`) returns none. -/
theorem pre_search_modify_cex :
    (exPluginRegistry.pre_search exSimpleQuery).1 = some exAnswerP ∧
      (preSearchClaimLoop exPluginRegistry.enabled_plugins exSimpleQuery).1 = none :=
  ⟨rfl, rfl⟩

/-- C8 amended: an `Answer` or `Skip` verdict ends the pipeline (later
plugins cannot affect the outcome), while a `ModifyQuery` verdict rewrites
the query and hands control to the remaining plugins. -/
theorem pre_search_pipeline (p : Plugin) (rest rest' : List Plugin) (q : SearchQuery) :
    ((p.pre_search q = PreSearchResult.Skip ∨
        ∃ a, p.pre_search q = PreSearchResult.Answer a) →
      preSearchLoop (p :: rest) q = preSearchLoop (p :: rest') q) ∧
    ∀ s, p.pre_search q = PreSearchResult.ModifyQuery s →
      preSearchLoop (p :: rest) q = preSearchLoop rest { q with query := s } := by
  constructor
  · rintro (h | ⟨a, h⟩) <;> simp [preSearchLoop, h]
  · intro s h
    simp [preSearchLoop, h]

/-- C8 witness: the amended claim applied to the fixture plugins. -/
theorem pre_search_pipeline_witness :
    preSearchLoop [exPluginAns, exPluginMod] exSimpleQuery =
        preSearchLoop [exPluginAns] exSimpleQuery ∧
      preSearchLoop [exPluginMod, exPluginAns] exSimpleQuery =
        preSearchLoop [exPluginAns] { exSimpleQuery with query := "changed" } :=
  ⟨(pre_search_pipeline exPluginAns [exPluginMod] [] exSimpleQuery).1
      (Or.inr ⟨exAnswerP, rfl⟩),
    (pre_search_pipeline exPluginMod [exPluginAns] [] exSimpleQuery).2 "changed" rfl⟩

/-! ## Claim C9: division by zero in the calculator -/

/-- An expression with no parenthesis, no operator split, and no constant or
function form is parsed as a number literal. -/
theorem parse_expression_literal (F : FloatFns) (e : List Char)
    (hp0 : rfindIdxP (fun c => c = '(') e = none)
    (hp2 : rfindIdxP (addsubPred e) e = none)
    (hp3 : rfindIdxP (fun c => c = '*' ∨ c = '/') e = none)
    (hp4 : rfindIdxP (fun c => c = '^') e = none)
    (hp5 : ¬(e.map toLowerC = "pi".toList)) (hp6 : ¬(e.map toLowerC = "e".toList))
    (hp7 : isPre "sqrt".toList e = false) (hp8 : isPre "sin".toList e = false)
    (hp9 : isPre "cos".toList e = false) (hp10 : isPre "tan".toList e = false)
    (hp11 : isPre "log".toList e = false) (hp12 : isPre "ln".toList e = false) :
    parse_expression F e = parseFloat? e := by
  unfold parse_expression
  split
  · next heq =>
    rw [hp0] at heq
    simp at heq
  · split
    · next heq =>
      rw [hp2] at heq
      simp at heq
    · unfold parseMulOnward
      split
      · next heq =>
        rw [hp3] at heq
        simp at heq
      · split
        · next heq =>
          rw [hp4] at heq
          simp at heq
        · rw [if_neg hp5, if_neg hp6,
            dif_neg (fun hcon => Bool.false_ne_true (hp7 ▸ hcon)),
            dif_neg (fun hcon => Bool.false_ne_true (hp8 ▸ hcon)),
            dif_neg (fun hcon => Bool.false_ne_true (hp9 ▸ hcon)),
            dif_neg (fun hcon => Bool.false_ne_true (hp10 ▸ hcon)),
            dif_neg (fun hcon => Bool.false_ne_true (hp11 ▸ hcon)),
            dif_neg (fun hcon => Bool.false_ne_true (hp12 ▸ hcon))]

/-- One-step characterization of `parse_expression` at a parenthesized
expression. -/
theorem parse_expression_paren {F : FloatFns} {e : List Char} {start iend : Nat}
    (h0 : rfindIdxP (fun c => c = '(') e = some start)
    (h1 : (e.drop start).findIdx? (fun c => c = ')') = some iend) :
    parse_expression F e =
      match parse_expression F ((e.drop (start + 1)).take (iend - 1)) with
      | some result =>
        parse_expression F (e.take start ++ F.fmt result ++ e.drop (start + iend + 1))
      | none => none := by
  conv_lhs => unfold parse_expression
  split
  · next start2 heq =>
    rw [h0] at heq
    obtain rfl : start = start2 := Option.some_inj.mp heq
    simp only [h1]
  · next heq =>
    rw [h0] at heq
    simp at heq

/-- One-step characterization at an addition/subtraction split with a
nonempty left operand. -/
theorem parse_expression_addsub {F : FloatFns} {e : List Char} {pos : Nat} {op : Char}
    (h0 : rfindIdxP (fun c => c = '(') e = none)
    (h2 : rfindIdxP (addsubPred e) e = some pos)
    (hop : e[pos]? = some op)
    (hne : e.take pos ≠ []) :
    parse_expression F e =
      match parse_expression F (e.take pos) with
      | some left_val =>
        match parse_expression F (e.drop (pos + 1)) with
        | some right_val =>
          some (if op = '+' then left_val + right_val else left_val - right_val)
        | none => none
      | none => none := by
  conv_lhs => unfold parse_expression
  split
  · next heq =>
    rw [h0] at heq
    simp at heq
  · split
    · next pos2 heq =>
      rw [h2] at heq
      obtain rfl : pos = pos2 := Option.some_inj.mp heq
      simp only [hop]
      rw [if_pos hne]
    · next heq =>
      rw [h2] at heq
      simp at heq

/-- When the addition/subtraction block falls through, `parse_expression`
continues as `parseMulOnward`. -/
theorem parse_expression_eq_mulOnward {F : FloatFns} {e : List Char}
    (h0 : rfindIdxP (fun c => c = '(') e = none) (hA : noAddSplit e) :
    parse_expression F e = parseMulOnward F e := by
  unfold parse_expression
  split
  · next heq =>
    rw [h0] at heq
    simp at heq
  · split
    · next pos2 heq =>
      rcases hA with hnone | ⟨pos1, op1, hrf, hop1, hempty⟩
      · rw [hnone] at heq
        simp at heq
      · rw [hrf] at heq
        obtain rfl : pos1 = pos2 := Option.some_inj.mp heq
        simp only [hop1]
        rw [if_neg fun hcon => hcon hempty]
    · rfl

theorem parseMulOnward_mulLeft {F : FloatFns} {e : List Char} {pos : Nat} {op : Char}
    (h3 : rfindIdxP (fun c => c = '*' ∨ c = '/') e = some pos)
    (hop : e[pos]? = some op)
    (hl : parse_expression F (e.take pos) = none) :
    parseMulOnward F e = none := by
  unfold parseMulOnward
  split
  · next pos2 heq =>
    rw [h3] at heq
    obtain rfl : pos = pos2 := Option.some_inj.mp heq
    simp only [hop, hl]
  · next heq =>
    rw [h3] at heq
    simp at heq

theorem parseMulOnward_mulRight {F : FloatFns} {e : List Char} {pos : Nat} {op : Char} {lv : ℚ}
    (h3 : rfindIdxP (fun c => c = '*' ∨ c = '/') e = some pos)
    (hop : e[pos]? = some op)
    (hl : parse_expression F (e.take pos) = some lv)
    (hr : parse_expression F (e.drop (pos + 1)) = none) :
    parseMulOnward F e = none := by
  unfold parseMulOnward
  split
  · next pos2 heq =>
    rw [h3] at heq
    obtain rfl : pos = pos2 := Option.some_inj.mp heq
    simp only [hop, hl, hr]
  · next heq =>
    rw [h3] at heq
    simp at heq

/-- The division site itself: a zero divisor is rejected before dividing. -/
theorem parseMulOnward_divZero {F : FloatFns} {e : List Char} {pos : Nat} {lv : ℚ}
    (h3 : rfindIdxP (fun c => c = '*' ∨ c = '/') e = some pos)
    (hop : e[pos]? = some '/')
    (hl : parse_expression F (e.take pos) = some lv)
    (hr : parse_expression F (e.drop (pos + 1)) = some 0) :
    parseMulOnward F e = none := by
  unfold parseMulOnward
  split
  · next pos2 heq =>
    rw [h3] at heq
    obtain rfl : pos = pos2 := Option.some_inj.mp heq
    simp only [hop, hl, hr]
    simp
  · next heq =>
    rw [h3] at heq
    simp at heq

/-- Any evaluation that reaches a division with a zero divisor produces no
value: the zero guard fires at the division site and `None` propagates
through every enclosing construct. -/
theorem parse_expression_none_of_divzero {F : FloatFns} {e : List Char}
    (h : ReachesDivZero F e) : parse_expression F e = none := by
  induction h with
  | parenInner e start iend h0 h1 hin ih =>
    rw [parse_expression_paren h0 h1, ih]
  | parenSubst e start iend result h0 h1 hin hnew ih =>
    rw [parse_expression_paren h0 h1, hin]
    exact ih
  | addLeft e pos op h0 h2 hop hne hin ih =>
    rw [parse_expression_addsub h0 h2 hop hne, ih]
  | addRight e pos op lv h0 h2 hop hne hl hin ih =>
    rw [parse_expression_addsub h0 h2 hop hne, hl, ih]
  | mulLeft e pos op h0 hA h3 hop hin ih =>
    rw [parse_expression_eq_mulOnward h0 hA]
    exact parseMulOnward_mulLeft h3 hop ih
  | mulRight e pos op lv h0 hA h3 hop hl hin ih =>
    rw [parse_expression_eq_mulOnward h0 hA]
    exact parseMulOnward_mulRight h3 hop hl ih
  | divZero e pos lv h0 hA h3 hop hl hr =>
    rw [parse_expression_eq_mulOnward h0 hA]
    exact parseMulOnward_divZero h3 hop hl hr

/-- C9: for every input expression whose evaluation reaches a division with
a zero divisor (`ReachesDivZero` enumerates exactly the evaluator's
division-reaching paths: parenthesized groups, substituted groups, and the
operands and site of the operator splits), the calculator's `process`
returns no answer rather than a value. -/
theorem process_div_by_zero (F : FloatFns) (q : String)
    (h : ReachesDivZero F (calcCleanup (calcStripQuery q.toList))) :
    CalculatorPlugin.process F q = none := by
  simp only [CalculatorPlugin.process, CalculatorPlugin.evaluate,
    parse_expression_none_of_divzero h, Option.map_none']

theorem parse_zero : parse_expression exFloatFns ['0'] = some 0 := by
  rw [parse_expression_literal exFloatFns ['0'] rfl rfl rfl rfl (by decide) (by decide)
    rfl rfl rfl rfl rfl rfl]
  unfold parseFloat?
  simp only [show parseSign ['0'] = ((1 : Int), ['0']) from rfl,
    show spanDigits ['0'] = (['0'], ([] : List Char)) from rfl]
  rw [if_neg (show ¬(['0'] = ([] : List Char)) by decide)]
  simp only [show parseExpPart [] = some (0 : Int) from rfl, Option.map_some',
    show digitsToNat ['0'] = 0 from rfl, show digitsToNat [] = 0 from rfl, decimalToRat]
  norm_num

theorem parse_one : parse_expression exFloatFns ['1'] = some 1 := by
  rw [parse_expression_literal exFloatFns ['1'] rfl rfl rfl rfl (by decide) (by decide)
    rfl rfl rfl rfl rfl rfl]
  unfold parseFloat?
  simp only [show parseSign ['1'] = ((1 : Int), ['1']) from rfl,
    show spanDigits ['1'] = (['1'], ([] : List Char)) from rfl]
  rw [if_neg (show ¬(['1'] = ([] : List Char)) by decide)]
  simp only [show parseExpPart [] = some (0 : Int) from rfl, Option.map_some',
    show digitsToNat ['1'] = 1 from rfl, show digitsToNat [] = 0 from rfl, decimalToRat]
  norm_num

/-- The expression `1/0` reaches a division by zero. -/
theorem reachesDivZero_ten : ReachesDivZero exFloatFns ['1', '/', '0'] :=
  ReachesDivZero.divZero ['1', '/', '0'] 1 1 rfl (Or.inl rfl) rfl rfl parse_one parse_zero

/-- The expression `1+1/0` reaches a division by zero inside the right
operand of its addition. -/
theorem reachesDivZero_oneplusten : ReachesDivZero exFloatFns ['1', '+', '1', '/', '0'] :=
  ReachesDivZero.addRight ['1', '+', '1', '/', '0'] 1 '+' 1 rfl rfl rfl (by decide)
    parse_one reachesDivZero_ten

/-- C9 witness: a direct division by zero and one nested under an addition
both yield no answer. -/
theorem process_div_by_zero_witness :
    CalculatorPlugin.process exFloatFns "1/0" = none ∧
      CalculatorPlugin.process exFloatFns "1+1/0" = none :=
  ⟨process_div_by_zero exFloatFns "1/0" reachesDivZero_ten,
    process_div_by_zero exFloatFns "1+1/0" reachesDivZero_oneplusten⟩

end Searx
